import Mathlib

/-!
Verification of the box-of-rain layout and rendering engine.

The diagram data model, the schema helpers, the canvas, the connection
router and the auto-layout engine are embedded as executable Lean
functions mirroring the TypeScript source (src/schema.ts, src/canvas.ts,
src/geometry.ts, src/draw-box.ts, src/draw-connection.ts, src/layout.ts).
JavaScript numbers are modelled as `Int` (all geometry the engine
produces is integral); optional fields as `Option`; JS string-truthiness
tests (`if (s)`) as a `truthyS` helper; the in-place mutation of boxes
held in arrays is modelled by rebuilding the array with the updated
nodes at the same positions.
-/

namespace BoxOfRain

/-- Connection side, `'left' | 'right' | 'top' | 'bottom'`. -/
inductive Side where
  | left
  | right
  | top
  | bottom
deriving DecidableEq, Repr

/-- Border style enum from schema.ts. -/
inductive BStyle where
  | single
  | double
  | bold
  | rounded
  | dashed
deriving DecidableEq, Repr

/-- `childDirection` enum. -/
inductive CDir where
  | horizontal
  | vertical
deriving DecidableEq, Repr

/-- `ConnectionDef` from schema.ts. -/
structure Conn where
  fromId : String
  toId : String
  label : Option String := none
  fromSide : Option Side := none
  toSide : Option Side := none
deriving DecidableEq, Repr

mutual

/-- `NodeDef` from schema.ts.  Field order: id, children, border, title,
shadow, disabled, childDirection, x, y, width, height, connections. -/
inductive Node : Type where
  | mk (id : Option String) (children : Option ChildrenVal)
       (border : Option BStyle) (title : Option String)
       (shadow : Option Bool) (disabled : Option Bool)
       (childDirection : Option CDir)
       (x : Option Int) (y : Option Int)
       (width : Option Int) (height : Option Int)
       (connections : Option (List Conn)) : Node

/-- The polymorphic `children` field: a single string, or an array of
strings and nodes. -/
inductive ChildrenVal : Type where
  | str : String → ChildrenVal
  | arr : List Entry → ChildrenVal

/-- One element of a `children` array. -/
inductive Entry : Type where
  | str : String → Entry
  | node : Node → Entry

end

namespace Node

def id : Node → Option String
  | .mk i _ _ _ _ _ _ _ _ _ _ _ => i

def children : Node → Option ChildrenVal
  | .mk _ c _ _ _ _ _ _ _ _ _ _ => c

def border : Node → Option BStyle
  | .mk _ _ b _ _ _ _ _ _ _ _ _ => b

def title : Node → Option String
  | .mk _ _ _ t _ _ _ _ _ _ _ _ => t

def shadow : Node → Option Bool
  | .mk _ _ _ _ s _ _ _ _ _ _ _ => s

def disabled : Node → Option Bool
  | .mk _ _ _ _ _ d _ _ _ _ _ _ => d

def childDirection : Node → Option CDir
  | .mk _ _ _ _ _ _ cd _ _ _ _ _ => cd

def x : Node → Option Int
  | .mk _ _ _ _ _ _ _ a _ _ _ _ => a

def y : Node → Option Int
  | .mk _ _ _ _ _ _ _ _ b _ _ _ => b

def width : Node → Option Int
  | .mk _ _ _ _ _ _ _ _ _ w _ _ => w

def height : Node → Option Int
  | .mk _ _ _ _ _ _ _ _ _ _ h _ => h

def connections : Node → Option (List Conn)
  | .mk _ _ _ _ _ _ _ _ _ _ _ cs => cs

def setX : Node → Option Int → Node
  | .mk i c b t s d cd _ py w h cs, a => .mk i c b t s d cd a py w h cs

def setY : Node → Option Int → Node
  | .mk i c b t s d cd px _ w h cs, a => .mk i c b t s d cd px a w h cs

def setWidth : Node → Option Int → Node
  | .mk i c b t s d cd px py _ h cs, a => .mk i c b t s d cd px py a h cs

def setHeight : Node → Option Int → Node
  | .mk i c b t s d cd px py w _ cs, a => .mk i c b t s d cd px py w a cs

def setChildren : Node → Option ChildrenVal → Node
  | .mk i _ b t s d cd px py w h cs, c => .mk i c b t s d cd px py w h cs

end Node

/-- An empty node (all fields absent), convenient for building examples. -/
def emptyNode : Node :=
  .mk none none none none none none none none none none none none

/-- JS truthiness of an optional string: `undefined` and `""` are falsy. -/
def truthyS : Option String → Bool
  | none => false
  | some s => s ≠ ""

/-- `getTextContent` from schema.ts: the text lines of a node, when its
`children` is a string or an array consisting solely of strings. -/
def getTextContent (node : Node) : Option (List String) :=
  match node.children with
  | none => none
  | some (.str s) => some [s]
  | some (.arr es) =>
    if es.isEmpty then none
    else
      match es with
      | Entry.str _ :: _ =>
        if es.all (fun e => match e with | .str _ => true | .node _ => false)
        then some (es.filterMap (fun e => match e with | .str s => some s | .node _ => none))
        else none
      | _ => none

/-- The node held by an entry, if it is one. -/
def entryNode? : Entry → Option Node
  | .str _ => none
  | .node n => some n

/-- `getChildBoxes` from schema.ts: when any element of the `children`
array is a structured node, the array is treated as boxes and exactly the
node elements are returned, in order. -/
def getChildBoxes (node : Node) : Option (List Node) :=
  match node.children with
  | some (.arr es) =>
    if es.isEmpty then none
    else if es.any (fun e => (entryNode? e).isSome)
    then some (es.filterMap entryNode?)
    else none
  | _ => none

/-- The child boxes of a node, defaulting to the empty list
(`getChildBoxes(node) || []`). -/
def childBoxesL (node : Node) : List Node :=
  (getChildBoxes node).getD []

-- `collectConnections` from schema.ts, by structural recursion.
mutual

def collectConnections : Node → List Conn
  | .mk _ ch _ _ _ _ _ _ _ _ _ conns =>
    conns.getD [] ++
      (match ch with
       | some (.arr es) => collectConnsEntries es
       | _ => [])

def collectConnsEntries : List Entry → List Conn
  | [] => []
  | .str _ :: es => collectConnsEntries es
  | .node n :: es => collectConnections n ++ collectConnsEntries es

end

/-! ### Canvas (src/canvas.ts)

Cells are JS strings (a cell can hold a glyph plus a combining mark). -/

structure Canvas where
  width : Int
  height : Int
  grid : List (List String)
deriving DecidableEq, Repr

namespace Canvas

/-- `new Canvas(width, height)`: all cells initialised to a space. -/
def new (w h : Int) : Canvas :=
  ⟨w, h, List.replicate h.toNat (List.replicate w.toNat " ")⟩

def inBounds (c : Canvas) (x y : Int) : Bool :=
  0 ≤ x && x < c.width && 0 ≤ y && y < c.height

/-- Bounds-checked write: out of bounds is a silent no-op. -/
def set (c : Canvas) (x y : Int) (ch : String) : Canvas :=
  if c.inBounds x y then
    { c with grid := c.grid.set y.toNat ((c.grid.getD y.toNat []).set x.toNat ch) }
  else c

/-- Bounds-checked read: out of bounds returns a space. -/
def get (c : Canvas) (x y : Int) : String :=
  if c.inBounds x y then (c.grid.getD y.toNat []).getD x.toNat " "
  else " "

/-- `writeText`: writes the characters of `text` left to right from `x`,
each through the bounds-checked `set`. -/
def writeText (c : Canvas) (x y : Int) (text : String) : Canvas :=
  (text.toList.enum).foldl
    (fun acc p => acc.set (x + (p.1 : Int)) y (String.singleton p.2)) c

end Canvas

/-! ### Geometry (src/geometry.ts) -/

/-- `ResolvedBox`: a box together with its absolute coordinates. -/
structure Resolved where
  box : Node
  absX : Int
  absY : Int

-- `resolveBox` from geometry.ts: depth-first search by id over the box
-- list and each box's child boxes, accumulating a +1 offset per nesting
-- level for the border.  The recursion into `getChildBoxes(box)` is
-- expressed structurally over the `children` entries (string entries are
-- skipped, exactly the elements `getChildBoxes` filters out).
mutual

def resolveBoxSub (id : String) (box : Node) (pX pY : Int) : Option Resolved :=
  match box with
  | .mk _ ch _ _ _ _ _ bx bY _ _ _ =>
    match ch with
    | some (.arr es) => resolveBoxEntries id es (pX + bx.getD 0 + 1) (pY + bY.getD 0 + 1)
    | _ => none

def resolveBoxEntries (id : String) (es : List Entry) (pX pY : Int) : Option Resolved :=
  match es with
  | [] => none
  | .str _ :: rest => resolveBoxEntries id rest pX pY
  | .node box :: rest =>
    if box.id = some id then
      some ⟨box, pX + box.x.getD 0, pY + box.y.getD 0⟩
    else
      match resolveBoxSub id box pX pY with
      | some found => some found
      | none => resolveBoxEntries id rest pX pY

end

/-- `resolveBox` entry point over a box list. -/
def resolveBoxL (id : String) (boxes : List Node) (pX pY : Int) : Option Resolved :=
  match boxes with
  | [] => none
  | box :: rest =>
    if box.id = some id then
      some ⟨box, pX + box.x.getD 0, pY + box.y.getD 0⟩
    else
      match resolveBoxSub id box pX pY with
      | some found => some found
      | none => resolveBoxL id rest pX pY

structure Point where
  x : Int
  y : Int
deriving DecidableEq, Repr

/-- `getAnchor` from geometry.ts: the cell one step outside the box edge
on the given side, centred (floor division) on the opposite axis.  The
TS non-null assertions on width/height are modelled by `getD 0`; every
box the claims resolve carries concrete geometry. -/
def getAnchor (resolved : Resolved) (side : Side) : Point :=
  let box := resolved.box
  let absX := resolved.absX
  let absY := resolved.absY
  match side with
  | .right => ⟨absX + box.width.getD 0, absY + (box.height.getD 0).fdiv 2⟩
  | .left => ⟨absX - 1, absY + (box.height.getD 0).fdiv 2⟩
  | .top => ⟨absX + (box.width.getD 0).fdiv 2, absY - 1⟩
  | .bottom => ⟨absX + (box.width.getD 0).fdiv 2, absY + box.height.getD 0⟩

/-- `centerText` from geometry.ts.  `text.slice(0, width)` truncates from
the end when `width` is negative, as in JS. -/
def centerText (text : String) (width : Int) : String :=
  if (text.length : Int) ≥ width then
    text.take (if 0 ≤ width then width.toNat else ((text.length : Int) + width).toNat)
  else
    let leftPad := ((width - (text.length : Int)) / 2).toNat
    String.mk (List.replicate leftPad ' ') ++ text ++
      String.mk (List.replicate (width - (text.length : Int) - leftPad).toNat ' ')

/-! ### Constants (src/constants.ts) -/

structure BorderChars where
  tl : String
  tr : String
  bl : String
  br : String
  h : String
  v : String
deriving DecidableEq, Repr

def BORDERS : BStyle → BorderChars
  | .single => ⟨"┌", "┐", "└", "┘", "─", "│"⟩
  | .double => ⟨"╔", "╗", "╚", "╝", "═", "║"⟩
  | .bold => ⟨"┏", "┓", "┗", "┛", "━", "┃"⟩
  | .rounded => ⟨"╭", "╮", "╰", "╯", "─", "│"⟩
  | .dashed => ⟨"┌", "┐", "└", "┘", "┄", "┆"⟩

def SHADOW_CHAR : String := "░"

/-- Arrow head glyph keyed by the destination side. -/
def ARROW_HEADS : Side → String
  | .left => "▶"
  | .right => "◀"
  | .top => "▼"
  | .bottom => "▲"

/-- The integer interval `[start, stop)`, ascending; empty when
`stop ≤ start` (the JS `for` loops these model never run backwards). -/
def intRange (start stop : Int) : List Int :=
  (List.range (stop - start).toNat).map (fun i => start + (i : Int))

/-! ### Box renderer (src/draw-box.ts)

`drawBox` requires concrete geometry (`NodeDef & {x,y,width,height}` in
TS); the four coordinates are passed explicitly.  For nested children the
TS spreads `{...child, x: x+1+(child.x||0), ...}` with non-null
assertions on width/height, modelled by `getD 0`. -/

def drawBoxStructureChars : List String :=
  ["┌", "┐", "└", "┘", "─", "│", "╔", "╗", "╚", "╝", "═", "║",
   "┏", "┓", "┗", "┛", "━", "┃", "╭", "╮", "╰", "╯", "░"]

mutual

def drawBox (canvas : Canvas) (box : Node) (x y width height : Int) : Canvas :=
  let b := BORDERS (box.border.getD .single)
  let shadow := box.shadow.getD false
  -- shadow first, so the box draws over it
  let canvas :=
    if shadow then
      let canvas := (intRange (y + 1) (y + height + 1)).foldl
        (fun c row => (c.set (x + width) row SHADOW_CHAR).set (x + width + 1) row SHADOW_CHAR)
        canvas
      (intRange (x + 1) (x + width + 2)).foldl
        (fun c col => c.set col (y + height) SHADOW_CHAR) canvas
    else canvas
  -- top border
  let canvas := canvas.set x y b.tl
  let canvas := (intRange 1 (width - 1)).foldl (fun c i => c.set (x + i) y b.h) canvas
  let canvas := canvas.set (x + width - 1) y b.tr
  -- bottom border
  let canvas := canvas.set x (y + height - 1) b.bl
  let canvas := (intRange 1 (width - 1)).foldl
    (fun c i => c.set (x + i) (y + height - 1) b.h) canvas
  let canvas := canvas.set (x + width - 1) (y + height - 1) b.br
  -- side borders with interior shadow clearing
  let canvas := (intRange (y + 1) (y + height - 1)).foldl
    (fun c row =>
      let c := c.set x row b.v
      let c := c.set (x + width - 1) row b.v
      (intRange (x + 1) (x + width - 1)).foldl
        (fun c col => if c.get col row = SHADOW_CHAR then c.set col row " " else c) c)
    canvas
  -- title on the top border
  let canvas :=
    match box.title with
    | some title =>
      if title ≠ "" then
        let titleStr := " " ++ title ++ " "
        let titleX := x + 2
        let canvas := canvas.set titleX y b.h
        let canvas := canvas.writeText (titleX + 1) y titleStr
        let afterTitle := titleX + 1 + (titleStr.length : Int)
        if afterTitle < x + width - 1 then
          (intRange afterTitle (x + width - 1)).foldl (fun c i => c.set i y b.h) canvas
        else canvas
      else canvas
    | none => canvas
  -- centred text content
  let canvas :=
    match getTextContent box with
    | some textLines =>
      let innerWidth := width - 4
      let startRow := y + (height - (textLines.length : Int)).fdiv 2
      textLines.enum.foldl
        (fun c p => c.writeText (x + 2) (startRow + (p.1 : Int)) (centerText p.2 innerWidth))
        canvas
    | none => canvas
  -- nested child boxes (the node entries of the children array, in
  -- order, exactly what `getChildBoxes` yields)
  let canvas :=
    match box with
    | .mk _ ch _ _ _ _ _ _ _ _ _ _ =>
      match ch with
      | some (.arr es) => drawChildEntries canvas es x y
      | _ => canvas
  -- disabled overlay
  if box.disabled.getD false then
    let canvas := (intRange (x + 1) (x + width - 1)).foldl
      (fun c col =>
        let ch := c.get col y
        if ch ≠ " " && !(drawBoxStructureChars.contains ch) then
          c.set col y (ch ++ "̶")
        else c)
      canvas
    (intRange (y + 1) (y + height - 1)).foldl
      (fun c row =>
        (intRange (x + 1) (x + width - 1)).foldl
          (fun c col => if c.get col row = " " then c.set col row "░" else c) c)
      canvas
  else canvas

def drawChildEntries (canvas : Canvas) (es : List Entry) (x y : Int) : Canvas :=
  match es with
  | [] => canvas
  | .str _ :: rest => drawChildEntries canvas rest x y
  | .node child :: rest =>
    let c := drawBox canvas child (x + 1 + child.x.getD 0) (y + 1 + child.y.getD 0)
      (child.width.getD 0) (child.height.getD 0)
    drawChildEntries c rest x y

end

/-! ### Connection router (src/draw-connection.ts) -/

/-- Corner glyph for an L turn: horizontal arrives with direction `hDir`,
vertical leaves with direction `yDir`. -/
def pickCorner (hDir yDir : Int) : String :=
  if hDir > 0 && yDir > 0 then "┐"
  else if hDir > 0 && yDir < 0 then "┘"
  else if hDir < 0 && yDir > 0 then "┌"
  else "└"

def pickOppositeCorner (hDir yDir : Int) : String :=
  if hDir > 0 && yDir > 0 then "└"
  else if hDir > 0 && yDir < 0 then "┌"
  else if hDir < 0 && yDir > 0 then "┘"
  else "┐"

def cornerGlyphs : List String := ["┐", "┘", "┌", "└"]

/-- Merge two box-drawing characters meeting at a junction into a tee. -/
def mergeJunction (existing incoming : String) (hDir : Int) : String :=
  if !(cornerGlyphs.contains existing) then incoming
  else if existing = incoming then incoming
  else if cornerGlyphs.contains existing && cornerGlyphs.contains incoming then
    (if hDir > 0 then "┤" else "├")
  else incoming

/-- Merge a horizontal dash with an existing connection corner into a
tee; anything else is overwritten by `incoming`. -/
def mergeHorizontal (existing incoming : String) : String :=
  if existing = "┐" then "┬"
  else if existing = "┌" then "┬"
  else if existing = "┘" then "┴"
  else if existing = "└" then "┴"
  else if existing = "┬" then "┬"
  else if existing = "┴" then "┴"
  else incoming

/-- Label placement along a horizontal segment, clamped so at least one
dash remains on each side when there is room. -/
def placeLabel (canvas : Canvas) (label : String) (segStart segEnd y : Int) : Canvas :=
  let padded := " " ++ label ++ " "
  let lo := min segStart segEnd
  let hi := max segStart segEnd
  let segLen := hi - lo
  let midX0 := (lo + hi).fdiv 2 - ((padded.length : Int) / 2)
  let midX :=
    if segLen ≥ (padded.length : Int) + 2 then
      min (max midX0 (lo + 1)) (hi - (padded.length : Int) - 1)
    else midX0
  canvas.writeText midX y padded

/-- The straight horizontal routing shape. -/
def drawStraight (canvas : Canvas) (src dst : Point) (arrowHead : String)
    (label : Option String) : Canvas :=
  let minX := min src.x dst.x
  let maxX := max src.x dst.x
  let canvas := (intRange (minX + 1) maxX).foldl
    (fun c col => c.set col src.y (mergeHorizontal (c.get col src.y) "─")) canvas
  let canvas := canvas.set dst.x dst.y arrowHead
  match label with
  | some l => if l ≠ "" then placeLabel canvas l (minX + 1) maxX src.y else canvas
  | none => canvas

/-- Directed exclusive range for the `col !== stop; col += dir` loops of
the router (`dir` is `1` or `-1`); empty when `stop` is not ahead of
`start`, where the JS loop would not terminate. -/
def stepRange (start stop dir : Int) : List Int :=
  if dir > 0 then (List.range (stop - start).toNat).map (fun i => start + (i : Int))
  else (List.range (start - stop).toNat).map (fun i => start - (i : Int))

/-- The U-shaped routing (same-side exit and entry). -/
def drawUShape (canvas : Canvas) (src dst : Point) (fromSide : Side)
    (arrowHead : String) (label : Option String) (boxes : List Node) : Canvas :=
  let isRight := fromSide = Side.right
  let dir : Int := if isRight then 1 else -1
  let extendX := boxes.foldl
    (fun acc box =>
      let right := box.x.getD 0 + box.width.getD 0 + (if box.shadow.getD false then 2 else 0)
      if isRight then max acc right else min acc (box.x.getD 0))
    (max src.x dst.x)
  let extendX := extendX + dir
  let canvas := (stepRange (src.x + dir) extendX dir).foldl
    (fun c col => c.set col src.y "─") canvas
  let yDir : Int := if dst.y > src.y then 1 else -1
  let canvas :=
    if isRight then canvas.set extendX src.y (pickCorner 1 yDir)
    else canvas.set extendX src.y (pickCorner (-1) yDir)
  let canvas := (stepRange (src.y + yDir) dst.y yDir).foldl
    (fun c row => c.set extendX row "│") canvas
  let secondCorner :=
    if isRight then (if yDir > 0 then "┘" else "┐")
    else (if yDir > 0 then "└" else "┌")
  let canvas := canvas.set extendX dst.y secondCorner
  let canvas := (stepRange (extendX - dir) dst.x (-dir)).foldl
    (fun c col => c.set col dst.y "─") canvas
  let canvas := canvas.set dst.x dst.y arrowHead
  match label with
  | some l =>
    if l ≠ "" then
      let srcLen := (extendX - src.x).natAbs
      let dstLen := (extendX - dst.x).natAbs
      if srcLen ≥ dstLen then placeLabel canvas l src.x extendX src.y
      else placeLabel canvas l dst.x extendX dst.y
    else canvas
  | none => canvas

/-- `computeLShapeMidX`: midpoint of the horizontal travel, shifted
toward the source when a sibling L-shaped connection from the same
source carries a label needing more clearance near the destination. -/
def computeLShapeMidX (src dst : Point) (fromId : String)
    (boxes : List Node) (allConnections : Option (List Conn)) : Int :=
  let hDir : Int := if dst.x > src.x then 1 else -1
  let siblings := (allConnections.getD []).filter (fun c => c.fromId = fromId)
  let maxMinSeg := siblings.foldl
    (fun acc sib =>
      match resolveBoxL sib.toId boxes 0 0 with
      | none => acc
      | some sibTo =>
        let sibDst := getAnchor sibTo Side.left
        if sibDst.y = src.y then acc
        else
          match sib.label with
          | some l => if l ≠ "" then max acc ((l.length : Int) + 2 + 2) else acc
          | none => acc)
    (0 : Int)
  let midX := (src.x + dst.x).fdiv 2
  if maxMinSeg > 0 then
    let dstLen := (dst.x - midX).natAbs
    if (dstLen : Int) < maxMinSeg then
      let midX := dst.x - hDir * maxMinSeg
      if hDir > 0 then max midX (src.x + 1) else min midX (src.x - 1)
    else midX
  else midX

/-- The L-shaped routing. -/
def drawLShape (canvas : Canvas) (src dst : Point) (arrowHead : String)
    (label : Option String) (midX : Int) : Canvas :=
  let hDir : Int := if dst.x > src.x then 1 else -1
  let yDir : Int := if dst.y > src.y then 1 else -1
  let canvas := (stepRange (src.x + hDir) midX hDir).foldl
    (fun c col => c.set col src.y (mergeHorizontal (c.get col src.y) "─")) canvas
  -- first corner: merge with whatever another connection left here
  let existing := canvas.get midX src.y
  let corner := pickCorner hDir yDir
  let canvas :=
    if existing = "─" then
      canvas.set midX src.y (if yDir > 0 then "┬" else "┴")
    else
      canvas.set midX src.y (mergeJunction existing corner hDir)
  let canvas := (stepRange (src.y + yDir) dst.y yDir).foldl
    (fun c row => c.set midX row "│") canvas
  let canvas := canvas.set midX dst.y (pickOppositeCorner hDir yDir)
  let canvas := (stepRange (midX + hDir) dst.x hDir).foldl
    (fun c col => c.set col dst.y "─") canvas
  let canvas := canvas.set dst.x dst.y arrowHead
  match label with
  | some l =>
    if l ≠ "" then
      let padded := " " ++ l ++ " "
      let srcLen := (midX - src.x).natAbs
      let dstLen := (dst.x - midX).natAbs
      if (dstLen : Int) ≥ (padded.length : Int) then placeLabel canvas l midX dst.x dst.y
      else if (srcLen : Int) ≥ (padded.length : Int) then placeLabel canvas l src.x midX src.y
      else canvas
    else canvas
  | none => canvas

/-- The body of `drawConnection` once both endpoints resolved. -/
def drawConnectionResolved (canvas : Canvas) (conn : Conn) (boxes : List Node)
    (allConnections : Option (List Conn)) (fromResolved toResolved : Resolved) : Canvas :=
  -- auto-detect sides from relative box centres when both are omitted;
  -- the centre comparison `(tX + tW/2) - (fX + fW/2)` is carried out at
  -- double scale to stay in ℤ
  let sides : Side × Side :=
    if conn.fromSide = none && conn.toSide = none then
      let fBox := fromResolved.box
      let tBox := toResolved.box
      let dx2 := (2 * toResolved.absX + tBox.width.getD 0) -
                 (2 * fromResolved.absX + fBox.width.getD 0)
      let dy2 := (2 * toResolved.absY + tBox.height.getD 0) -
                 (2 * fromResolved.absY + fBox.height.getD 0)
      if dy2.natAbs > dx2.natAbs then
        (if dy2 > 0 then (Side.bottom, Side.top) else (Side.top, Side.bottom))
      else
        (if dx2 > 0 then (Side.right, Side.left) else (Side.left, Side.right))
    else (conn.fromSide.getD Side.right, conn.toSide.getD Side.left)
  let fromSide := sides.1
  let toSide := sides.2
  let src := getAnchor fromResolved fromSide
  let dst := getAnchor toResolved toSide
  let arrowHead := ARROW_HEADS toSide
  let isVertical := (fromSide = Side.bottom || fromSide = Side.top) &&
                    (toSide = Side.top || toSide = Side.bottom)
  if isVertical then
    -- single vertical run at the rounded average column
    let avgX := (src.x + dst.x + 1).fdiv 2
    let minY := min src.y dst.y
    let maxY := max src.y dst.y
    let canvas := (intRange minY (maxY + 1)).foldl
      (fun c row => c.set avgX row "│") canvas
    let canvas := canvas.set avgX dst.y arrowHead
    match conn.label with
    | some l =>
      if l ≠ "" then canvas.writeText (avgX + 2) ((minY + maxY).fdiv 2) l else canvas
    | none => canvas
  else if (fromSide = toSide && (fromSide = Side.right || fromSide = Side.left))
          && src.y ≠ dst.y then
    drawUShape canvas src dst fromSide arrowHead conn.label boxes
  else if src.y = dst.y then
    drawStraight canvas src dst arrowHead conn.label
  else
    let midX := computeLShapeMidX src dst conn.fromId boxes allConnections
    drawLShape canvas src dst arrowHead conn.label midX

/-- `drawConnection` from draw-connection.ts: resolve both endpoint ids
first; a missing endpoint silently skips the whole connection. -/
def drawConnection (canvas : Canvas) (conn : Conn) (boxes : List Node)
    (allConnections : Option (List Conn) := none) : Canvas :=
  match resolveBoxL conn.fromId boxes 0 0, resolveBoxL conn.toId boxes 0 0 with
  | some fromResolved, some toResolved =>
    drawConnectionResolved canvas conn boxes allConnections fromResolved toResolved
  | _, _ => canvas

/-! ### Auto-layout engine (src/layout.ts)

JS `Map`s are modelled as association lists whose `set` updates an
existing key in place (preserving insertion order, as JS `Map` does) and
otherwise appends; JS `Set`s as lists of distinct elements.  The
in-place mutation of the boxes held in the children array is modelled by
threading updated node lists and rebuilding the array. -/

def alGet {κ α : Type} [DecidableEq κ] (m : List (κ × α)) (k : κ) : Option α :=
  (m.find? (fun p => p.1 == k)).map (fun p => p.2)

def alSet {κ α : Type} [DecidableEq κ] (m : List (κ × α)) (k : κ) (v : α) : List (κ × α) :=
  if m.any (fun p => p.1 == k) then m.map (fun p => if p.1 == k then (k, v) else p)
  else m ++ [(k, v)]

/-- `adj.get(k)?.push(v)`: append to the adjacency list of `k` when the
key exists, otherwise do nothing. -/
def adjPush {κ α : Type} [DecidableEq κ] (m : List (κ × List α)) (k : κ) (v : α) :
    List (κ × List α) :=
  m.map (fun p => if p.1 == k then (p.1, p.2 ++ [v]) else p)

/-- Stable insertion of `a` into `l`: `a` goes after every element `b`
with `le b a`, so elements comparing equal keep their original order. -/
def insertLE {α : Type} (le : α → α → Bool) (a : α) : List α → List α
  | [] => [a]
  | b :: l => if le b a then b :: insertLE le a l else a :: b :: l

/-- Stable sort by a total preorder `le`; agrees with the (stable) JS
`Array.prototype.sort` for a consistent comparator. -/
def sortByLE {α : Type} (le : α → α → Bool) (l : List α) : List α :=
  l.foldl (fun acc a => insertLE le a acc) []

/-- `LayoutOptions` (all keys optional). -/
structure LayoutOptions where
  defaultHGap : Option Int := none
  vGap : Option Int := none
  padLeft : Option Int := none
  padTop : Option Int := none
  minBoxWidth : Option Int := none
  minBoxHeight : Option Int := none
deriving DecidableEq, Repr

/-- `Required<LayoutOptions>`. -/
structure ROpts where
  defaultHGap : Int
  vGap : Int
  padLeft : Int
  padTop : Int
  minBoxWidth : Int
  minBoxHeight : Int
deriving DecidableEq, Repr

def DEFAULT_LAYOUT_OPTIONS : ROpts :=
  { defaultHGap := 3, vGap := 2, padLeft := 2, padTop := 1
    minBoxWidth := 12, minBoxHeight := 5 }

/-- `{ ...DEFAULT_LAYOUT_OPTIONS, ...options }`. -/
def mergeOpts (options : Option LayoutOptions) : ROpts :=
  match options with
  | none => DEFAULT_LAYOUT_OPTIONS
  | some o =>
    { defaultHGap := o.defaultHGap.getD DEFAULT_LAYOUT_OPTIONS.defaultHGap
      vGap := o.vGap.getD DEFAULT_LAYOUT_OPTIONS.vGap
      padLeft := o.padLeft.getD DEFAULT_LAYOUT_OPTIONS.padLeft
      padTop := o.padTop.getD DEFAULT_LAYOUT_OPTIONS.padTop
      minBoxWidth := o.minBoxWidth.getD DEFAULT_LAYOUT_OPTIONS.minBoxWidth
      minBoxHeight := o.minBoxHeight.getD DEFAULT_LAYOUT_OPTIONS.minBoxHeight }

/-- `autoSizeBox`: fill in missing width/height from content, title and
the configured minima. -/
def autoSizeBox (box : Node) (opts : ROpts) : Node :=
  let lines := (getTextContent box).getD []
  let longestLine : Int := lines.foldl (fun m l => max m ((l.length : Int))) 0
  let titleLen : Int := match box.title with | some t => (t.length : Int) | none => 0
  let box := if box.width = none then
      box.setWidth (some (max (max (longestLine + 4) (titleLen + 6)) opts.minBoxWidth))
    else box
  if box.height = none then
    box.setHeight (some (max ((lines.length : Int) + 2) opts.minBoxHeight))
  else box

/-- `equalizeWidths`: when at least two children carry a width and the
spread is within 30% of the max (`min >= max * 0.7`, carried out in ℤ as
`10*min >= 7*max`), set all of them to the max.  Note the filter
`c.width != null` runs after `autoSizeBox` has filled every width. -/
def equalizeWidths (children : List Node) : List Node :=
  let autoSized := children.filter (fun c => c.width.isSome)
  if autoSized.length < 2 then children
  else
    let ws : List Int := autoSized.map (fun c => c.width.getD 0)
    let maxW : Int := ws.foldl max (ws.headD 0)
    let minW : Int := ws.foldl min (ws.headD 0)
    if 10 * minW ≥ 7 * maxW then
      children.map (fun c => if c.width.isSome then c.setWidth (some maxW) else c)
    else children

/-- `computeLayerGaps`: per-layer horizontal gap, inflated for the
longest label on a forward single-step connection. -/
def computeLayerGaps (layers : List (Option (List Node))) (connections : List Conn)
    (defaultGap : Int) : List Int :=
  let idToLayer : List (String × Nat) := layers.enum.foldl
    (fun m p =>
      match p.2 with
      | none => m
      | some group => group.foldl
          (fun m box =>
            match box.id with
            | some i => if i ≠ "" then alSet m i p.1 else m
            | none => m) m)
    []
  let pairMax : List (Nat × Int) := connections.foldl
    (fun pm conn =>
      if !truthyS conn.label then pm
      else
        match alGet idToLayer conn.fromId, alGet idToLayer conn.toId with
        | some fromLayer, some toLayer =>
          if fromLayer ≥ toLayer then pm
          else if conn.fromSide.isSome && conn.toSide.isSome && conn.fromSide = conn.toSide then pm
          else if toLayer - fromLayer = 1 then
            alSet pm fromLayer
              (max ((alGet pm fromLayer).getD 0) (((conn.label.getD "").length : Int)))
          else pm
        | _, _ => pm)
    []
  (List.range layers.length).map (fun i => max defaultGap ((alGet pairMax i).getD 0 + 4))

def layoutVerticalGo (padLeft vGap : Int) : List Node → Int → List Node
  | [], _ => []
  | c :: rest, curY =>
    let c := if c.x = none then c.setX (some padLeft) else c
    let c := if c.y = none then c.setY (some curY) else c
    c :: layoutVerticalGo padLeft vGap rest (curY + c.height.getD 0 + vGap)

/-- `layoutVertical`: stack children top to bottom at a fixed left pad. -/
def layoutVertical (children : List Node) (intraConns : List Conn) (opts : ROpts) :
    List Node :=
  let hasLabeledConn := intraConns.any (fun c => truthyS c.label)
  let hasConn := !intraConns.isEmpty
  let vGap : Int := if hasLabeledConn then 3 else if hasConn then 2 else 1
  layoutVerticalGo opts.padLeft vGap children opts.padTop

/-- State of the longest-path layering loop: the worklist array with its
read index handled by the caller, the layer map and the in-degree map. -/
structure KahnState where
  queue : List String
  layer : List (String × Int)
  inDeg : List (String × Int)

/-- Process the out-neighbours of `cur`: raise their layer, decrement
their in-degree, enqueue those that reach in-degree zero. -/
def kahnVisit (adj : List (String × List String)) (cur : String) (st : KahnState) :
    KahnState :=
  ((alGet adj cur).getD []).foldl
    (fun st next =>
      let newLayer := (alGet st.layer cur).getD 0 + 1
      let layer := alSet st.layer next (max ((alGet st.layer next).getD 0) newLayer)
      let inDeg := alSet st.inDeg next ((alGet st.inDeg next).getD 0 - 1)
      let queue := if alGet inDeg next = some 0 then st.queue ++ [next] else st.queue
      ⟨queue, layer, inDeg⟩)
    st

/-- The plain worklist loop of `layoutHorizontal` (`while (qi <
queue.length)`), with fuel bounding the iteration count (the call site
passes enough fuel for the loop to run to completion, since each id is
enqueued at most once). -/
def kahnLoop (adj : List (String × List String)) :
    Nat → Nat → KahnState → List (String × Int)
  | 0, _, st => st.layer
  | fuel + 1, qi, st =>
    if qi < st.queue.length then
      kahnLoop adj fuel (qi + 1) (kahnVisit adj (st.queue.getD qi "") st)
    else st.layer

/-- Group an indexed child list by layer number, as the JS
`layers[l].push(c)` loop does: index `i` holds the children whose key is
`i`, in order; never-assigned indices below the maximum are holes. -/
def groupByKey (key : Node → Nat) (children : List Node) :
    List (Option (List (Nat × Node))) :=
  if children.isEmpty then []
  else
    let idxd := children.enum
    let maxK := (idxd.map (fun p => key p.2)).foldl max 0
    (List.range (maxK + 1)).map (fun i =>
      let g := idxd.filter (fun p => key p.2 == i)
      if g.isEmpty then none else some g)

def stripIdx (groups : List (Option (List (Nat × Node)))) : List (Option (List Node)) :=
  groups.map (fun g => g.map (fun l => l.map (fun p => p.2)))

def flattenGroups : List (Option (List (Nat × Node))) → List (Nat × Node)
  | [] => []
  | g :: rest => g.getD [] ++ flattenGroups rest

/-- Rebuild the children array in original order from the per-index
updated nodes (the JS loops mutate each child object in place). -/
def applyAssign (children : List Node) (assignments : List (Nat × Node)) : List Node :=
  children.enum.map (fun p =>
    match assignments.find? (fun q => q.1 == p.1) with
    | some q => q.2
    | none => p.2)

/-- One column of the nested horizontal placement: `x := curX`, `y`
stacked from `padTop` with gap `childVGap`; returns the placed members
and the column's max width. -/
def placeColNested (curX childVGap : Int) :
    List (Nat × Node) → Int → Int → (List (Nat × Node) × Int)
  | [], _, maxW => ([], maxW)
  | (j, c) :: rest, curY, maxW =>
    let c := if c.x = none then c.setX (some curX) else c
    let c := if c.y = none then c.setY (some curY) else c
    let res := placeColNested curX childVGap rest
      (curY + c.height.getD 0 + childVGap) (max maxW (c.width.getD 0))
    ((j, c) :: res.1, res.2)

def placeGroupsNested (opts : ROpts) (childHGap childVGap : Int) (layerGaps : List Int) :
    List (Nat × Option (List (Nat × Node))) → Int → List (Option (List (Nat × Node)))
  | [], _ => []
  | (i, g) :: rest, curX =>
    let gap := layerGaps.getD i childHGap
    match g with
    | none => none :: placeGroupsNested opts childHGap childVGap layerGaps rest (curX + gap)
    | some grp =>
      let pr := placeColNested curX childVGap grp opts.padTop 0
      some pr.1 :: placeGroupsNested opts childHGap childVGap layerGaps rest (curX + pr.2 + gap)

/-- `layoutHorizontal`: longest-path layering over the intra-parent
connection graph, then left-to-right placement of the layers. -/
def layoutHorizontal (children : List Node) (intraConns : List Conn) (opts : ROpts) :
    List Node :=
  let init := children.foldl
    (fun (acc : List (String × List String) × List (String × Int)) c =>
      match c.id with
      | some i => if i ≠ "" then (alSet acc.1 i [], alSet acc.2 i 0) else acc
      | none => acc)
    ([], [])
  let adj := intraConns.foldl (fun adj conn => adjPush adj conn.fromId conn.toId) init.1
  let inDeg := intraConns.foldl
    (fun m conn => alSet m conn.toId ((alGet m conn.toId).getD 0 + 1)) init.2
  let queue0 := children.filterMap (fun c =>
    match c.id with
    | some i => if i ≠ "" && alGet inDeg i = some 0 then some i else none
    | none => none)
  let layer0 := queue0.foldl (fun m i => alSet m i 0) []
  let layer1 := kahnLoop adj (children.length + intraConns.length + 1) 0
    ⟨queue0, layer0, inDeg⟩
  -- `if (c.id && !layer.has(c.id)) layer.set(c.id, 0)`
  let layer2 := children.foldl
    (fun m c =>
      match c.id with
      | some i => if i ≠ "" && (alGet m i).isNone then alSet m i 0 else m
      | none => m)
    layer1
  let key : Node → Nat := fun c =>
    match c.id with
    | some i => if i ≠ "" then ((alGet layer2 i).getD 0).toNat else 0
    | none => 0
  let groups := groupByKey key children
  let childHGap : Int := 5
  let childVGap : Int := 1
  let layerGaps := computeLayerGaps (stripIdx groups) intraConns childHGap
  let placed := placeGroupsNested opts childHGap childVGap layerGaps groups.enum opts.padLeft
  applyAssign children (flattenGroups placed)

/-- Replace the node elements of a children array, in order, by the
given updated boxes (string elements stay in place). -/
def replaceNodes : List Entry → List Node → List Entry
  | [], _ => []
  | .str s :: es, ns => .str s :: replaceNodes es ns
  | .node n :: es, [] => .node n :: replaceNodes es []
  | .node _ :: es, n2 :: ns => .node n2 :: replaceNodes es ns

def setChildBoxes (node : Node) (boxes : List Node) : Node :=
  match node.children with
  | some (.arr es) => node.setChildren (some (.arr (replaceNodes es boxes)))
  | _ => node

/-- `autoSizeCanvas`: size the diagram to the bounding box of its
positioned top-level boxes plus shadow allowance. -/
def autoSizeCanvas (diagram : Node) : Node :=
  let children := childBoxesL diagram
  let maxX := children.foldl
    (fun m box =>
      max m (box.x.getD 0 + box.width.getD 0 + (if box.shadow.getD false then 2 else 0))) 0
  let maxY := children.foldl
    (fun m box =>
      max m (box.y.getD 0 + box.height.getD 0 + (if box.shadow.getD false then 1 else 0))) 0
  let d := if diagram.width = none then diagram.setWidth (some (maxX + 2)) else diagram
  if d.height = none then d.setHeight (some (maxY + 1)) else d

-- `layoutChildren` and its per-child recursion step.  The JS recurses
-- over `getChildBoxes(parent)`; structurally this walks the node entries
-- of the children array (the exact elements `getChildBoxes` keeps).
mutual

def layoutChildren (parent : Node) (allConns : List Conn) (opts : ROpts) : Node :=
  match parent with
  | .mk i ch bd t s d cd px py w h cs =>
    match ch with
    | some (.arr es) =>
      let children := es.filterMap entryNode?
      if children.isEmpty then parent
      else
        let step1 := layoutStep1Entries es allConns opts
        let step2 := equalizeWidths step1
        -- the id set is read off the same (mutated-in-place) children;
        -- ids are untouched by layout
        let childIds := step2.filterMap (fun c =>
          match c.id with
          | some sid => if sid ≠ "" then some sid else none
          | none => none)
        let intraConns := allConns.filter (fun c =>
          childIds.contains c.fromId && childIds.contains c.toId)
        let step3 :=
          if cd = some CDir.vertical then layoutVertical step2 intraConns opts
          else layoutHorizontal step2 intraConns opts
        let es2 := replaceNodes es step3
        let maxRight := step3.foldl
          (fun m c =>
            max m (c.x.getD 0 + c.width.getD 0 + (if c.shadow.getD false then 2 else 0))) 0
        let maxChildW := step3.foldl (fun m c => max m (c.width.getD 0)) 0
        let minWidth0 := maxRight + 4
        let minWidth1 :=
          if cd = some CDir.vertical then
            intraConns.foldl
              (fun mw conn =>
                if truthyS conn.label then
                  -- `Math.ceil(maxChildW / 2)` is `⌊(maxChildW + 1) / 2⌋`
                  max mw ((maxChildW + 1).fdiv 2 + (((conn.label.getD "").length : Int)) + 8)
                else mw)
              minWidth0
          else minWidth0
        let minWidth2 :=
          if truthyS t then max minWidth1 (((t.getD "").length : Int) + 6) else minWidth1
        let w2 := if w = none then some minWidth2 else w
        let maxBottom := step3.foldl
          (fun m c =>
            max m (c.y.getD 0 + c.height.getD 0 + (if c.shadow.getD false then 1 else 0))) 0
        let h2 := if h = none then some (maxBottom + 2) else h
        .mk i (some (.arr es2)) bd t s d cd px py w2 h2 cs
    | _ => parent

def layoutStep1Entries (es : List Entry) (allConns : List Conn) (opts : ROpts) : List Node :=
  match es with
  | [] => []
  | .str _ :: rest => layoutStep1Entries rest allConns opts
  | .node c :: rest =>
    let c1 := if (getChildBoxes c).isSome then layoutChildren c allConns opts else c
    autoSizeBox c1 opts :: layoutStep1Entries rest allConns opts

end

/-- `getMedianPosition`: the median previous-layer position of the
connected predecessors of `id` (`none` plays JS `Infinity`). -/
def getMedianPosition (id : Option String) (connections : List Conn)
    (prevOrder : List (String × Nat)) (childToParent : List (String × String)) :
    Option Int :=
  let positions : List Int := connections.foldl
    (fun acc conn =>
      let fromTop : Option String :=
        if (alGet prevOrder conn.fromId).isSome then some conn.fromId
        else alGet childToParent conn.fromId
      let toTop : Option String :=
        if (alGet prevOrder conn.toId).isSome then some conn.toId
        else alGet childToParent conn.toId
      if toTop = id then
        match fromTop with
        | some f =>
          if f ≠ "" && (alGet prevOrder f).isSome then
            acc ++ [(((alGet prevOrder f).getD 0 : Nat) : Int)]
          else acc
        | none => acc
      else acc)
    []
  if positions.isEmpty then none
  else
    let sorted := sortByLE (fun a b => a ≤ b) positions
    some (sorted.getD (positions.length / 2) 0)

def medLE (a b : Option Int) : Bool :=
  match a, b with
  | none, none => true
  | none, some _ => false
  | some _, none => true
  | some av, some bv => av ≤ bv

/-- Sort one layer by median predecessor position (layers after the
first; holes and singleton layers are left alone). -/
def sortOneLayer (conns : List Conn) (childToParent : List (String × String))
    (prev : Option (List (Nat × Node))) (g : List (Nat × Node)) : List (Nat × Node) :=
  let prevLayer := (prev.getD []).map (fun p => p.2)
  -- `new Map(prevLayer.map((b, idx) => [b.id!, idx]))`: an id-less box
  -- keys `undefined`, which no string lookup can hit, so it is dropped
  let prevOrder : List (String × Nat) := prevLayer.enum.foldl
    (fun m p =>
      match p.2.id with
      | some i => alSet m i p.1
      | none => m)
    []
  let keyed := g.map (fun p => (getMedianPosition p.2.id conns prevOrder childToParent, p))
  (sortByLE (fun a b => medLE a.1 b.1) keyed).map (fun q => q.2)

def sortLayers (conns : List Conn) (childToParent : List (String × String)) :
    Option (List (Nat × Node)) → List (Option (List (Nat × Node))) →
    List (Option (List (Nat × Node)))
  | _, [] => []
  | prev, g :: rest =>
    let g' := match g with
      | some l => if l.length ≤ 1 then g else some (sortOneLayer conns childToParent prev l)
      | none => none
    g' :: sortLayers conns childToParent g' rest

/-- Cycle breaking: among unlayered ids, the one with smallest remaining
in-degree (`bestDeg` starts at JS `Infinity`, modelled by `none`). -/
def topKahnSeek (children : List Node) (layer inDeg : List (String × Int)) :
    Option String :=
  (children.foldl
    (fun (acc : Option String × Option Int) b =>
      match b.id with
      | some i =>
        if i ≠ "" && (alGet layer i).isNone then
          let deg := (alGet inDeg i).getD 0
          match acc.2 with
          | none => (some i, some deg)
          | some bd => if deg < bd then (some i, some deg) else acc
        else acc
      | none => acc)
    (none, none)).1

/-- The top-level layering loop, with deterministic cycle breaking: when
the worklist is exhausted but boxes remain unlayered, seed the unlayered
id of least in-degree at layer 0; stop when no candidate is left. -/
def topKahnLoop (children : List Node) (adj : List (String × List String)) :
    Nat → Nat → KahnState → List (String × Int)
  | 0, _, st => st.layer
  | fuel + 1, qi, st =>
    if qi < st.queue.length || st.layer.length < children.length then
      if qi ≥ st.queue.length && st.layer.length < children.length then
        match topKahnSeek children st.layer st.inDeg with
        | none => st.layer
        | some best =>
          let st2 : KahnState := ⟨st.queue ++ [best], alSet st.layer best 0, st.inDeg⟩
          topKahnLoop children adj fuel (qi + 1)
            (kahnVisit adj (st2.queue.getD qi "") st2)
      else
        topKahnLoop children adj fuel (qi + 1)
          (kahnVisit adj (st.queue.getD qi "") st)
    else st.layer

/-- One top-level column: `x := curX`, `y` stacked from 1 with the shadow
allowance and `vGap`; returns the placed members, the final stacking `y`
and the column's max width (shadow included). -/
def placeColTop (vGap curX : Int) :
    List (Nat × Node) → Int → Int → (List (Nat × Node) × Int × Int)
  | [], curY, maxW => ([], curY, maxW)
  | (j, c) :: rest, curY, maxW =>
    let c := if c.x = none then c.setX (some curX) else c
    let c := if c.y = none then c.setY (some curY) else c
    let shadowH : Int := if c.shadow.getD false then 1 else 0
    let shadowW : Int := if c.shadow.getD false then 2 else 0
    let res := placeColTop vGap curX rest (curY + c.height.getD 0 + shadowH + vGap)
      (max maxW (c.width.getD 0 + shadowW))
    ((j, c) :: res.1, res.2)

/-- Walk the top-level layers left to right assigning coordinates,
collecting each non-hole column's stacked height (`curY - vGap`). -/
def placeGroupsTop (vGap defaultHGap : Int) (layerGaps : List Int) :
    List (Nat × Option (List (Nat × Node))) → Int →
    (List (Option (List (Nat × Node))) × List Int)
  | [], _ => ([], [])
  | (i, g) :: rest, curX =>
    let gap := layerGaps.getD i defaultHGap
    match g with
    | none =>
      let r := placeGroupsTop vGap defaultHGap layerGaps rest (curX + gap)
      (none :: r.1, r.2)
    | some grp =>
      let pr := placeColTop vGap curX grp 1 0
      let r := placeGroupsTop vGap defaultHGap layerGaps rest (curX + pr.2.2 + gap)
      (some pr.1 :: r.1, (pr.2.1 - vGap) :: r.2)

/-- Vertical centering of shorter columns against the tallest; the
column-height list skips holes while the layer index does not, so a
misaligned read past its end (JS `NaN` offset) shifts nothing. -/
def centerGroups (maxHeight : Int) (columnHeights : List Int) :
    List (Option (List (Nat × Node))) → Nat → List (Option (List (Nat × Node)))
  | [], _ => []
  | none :: rest, li => none :: centerGroups maxHeight columnHeights rest (li + 1)
  | some g :: rest, li =>
    let g' := match columnHeights.get? li with
      | some colH =>
        let offset := (maxHeight - colH).fdiv 2
        if offset > 0 then
          g.map (fun p => (p.1, p.2.setY (some (p.2.y.getD 0 + offset))))
        else g
      | none => g
    some g' :: centerGroups maxHeight columnHeights rest (li + 1)

/-- The disconnected spread: when the top-level graph has no edges and
everything collapsed into one multi-member layer, explode it into one
box per layer. -/
def spreadStage (hasTopEdges : Bool) (groups0 : List (Option (List (Nat × Node)))) :
    List (Option (List (Nat × Node))) :=
  if !hasTopEdges && groups0.length = 1 then
    match groups0 with
    | [some g] => if g.length > 1 then g.map (fun p => some [p]) else groups0
    | _ => groups0
  else groups0

/-- Step 3: order every layer after the first by median predecessor
position (`for (let i = 1; ...)`). -/
def sortStage (conns : List Conn) (childToParent : List (String × String)) :
    List (Option (List (Nat × Node))) → List (Option (List (Nat × Node)))
  | [] => []
  | g0 :: rest => g0 :: sortLayers conns childToParent g0 rest

/-- Steps 2-5 of `autoLayout` (reached when some top-level box still
lacks a position after step 1): top-level layering over ancestor-
attributed connections, the disconnected spread, median ordering,
coordinate assignment, column centering and canvas sizing. -/
def autoLayoutRest (cloned : Node) (clonedConns : List Conn) (opts : ROpts)
    (step1 : List Node) : Node :=
      -- Step 2: attribute connections to nearest top-level ancestors
      let topIds := step1.filterMap (fun b =>
        match b.id with
        | some i => if i ≠ "" then some i else none
        | none => none)
      let childToParent := step1.foldl
        (fun m box =>
          match getChildBoxes box, box.id with
          | some grandchildren, some bid =>
            if bid ≠ "" then
              grandchildren.foldl
                (fun m child =>
                  match child.id with
                  | some cid => if cid ≠ "" then alSet m cid bid else m
                  | none => m) m
            else m
          | _, _ => m)
        []
      let adjInit := step1.foldl
        (fun (acc : List (String × List String) × List (String × Int)) b =>
          match b.id with
          | some i => if i ≠ "" then (alSet acc.1 i [], alSet acc.2 i 0) else acc
          | none => acc)
        ([], [])
      let topEdges := clonedConns.foldl
        (fun (acc : List (String × List String) × List (String × Int)) conn =>
          let fromTop := if topIds.contains conn.fromId then some conn.fromId
            else alGet childToParent conn.fromId
          let toTop := if topIds.contains conn.toId then some conn.toId
            else alGet childToParent conn.toId
          match fromTop, toTop with
          | some f, some tt =>
            if f ≠ "" && tt ≠ "" && f ≠ tt then
              if !(((alGet acc.1 f).getD []).contains tt) then
                (adjPush acc.1 f tt, alSet acc.2 tt ((alGet acc.2 tt).getD 0 + 1))
              else acc
            else acc
          | _, _ => acc)
        adjInit
      let topAdj := topEdges.1
      let topInDeg := topEdges.2
      -- longest-path layering with cycle breaking
      let queue0 := step1.filterMap (fun b =>
        match b.id with
        | some i => if i ≠ "" && alGet topInDeg i = some 0 then some i else none
        | none => none)
      let layer0 := queue0.foldl (fun m i => alSet m i 0) []
      let layerMap := topKahnLoop step1 topAdj
        (2 * step1.length + clonedConns.length + 2) 0 ⟨queue0, layer0, topInDeg⟩
      let key : Node → Nat := fun b =>
        match b.id with
        | some i => if i ≠ "" then ((alGet layerMap i).getD 0).toNat else 0
        | none => 0
      let groups0 := groupByKey key step1
      -- spread disconnected boxes into separate layers
      let hasTopEdges := topAdj.any (fun p => !p.2.isEmpty)
      let groups1 := spreadStage hasTopEdges groups0
      -- Step 3: order within layers by median predecessor position
      let groups2 := sortStage clonedConns childToParent groups1
      -- Step 4: assign coordinates
      let topConns : List Conn := clonedConns.filterMap (fun conn =>
        let fromTop := if topIds.contains conn.fromId then some conn.fromId
          else alGet childToParent conn.fromId
        let toTop := if topIds.contains conn.toId then some conn.toId
          else alGet childToParent conn.toId
        match fromTop, toTop with
        | some f, some tt =>
          if f ≠ "" && tt ≠ "" && f ≠ tt then
            some ⟨f, tt, conn.label, conn.fromSide, conn.toSide⟩
          else none
        | _, _ => none)
      let layerGaps := computeLayerGaps (stripIdx groups2) topConns opts.defaultHGap
      let placedPair := placeGroupsTop opts.vGap opts.defaultHGap layerGaps groups2.enum 0
      let columnHeights := placedPair.2
      let maxHeight := match columnHeights with
        | [] => 0
        | hh :: t => t.foldl max hh
      let centered := centerGroups maxHeight columnHeights placedPair.1 0
      let final := applyAssign step1 (flattenGroups centered)
      -- Step 5: auto-size canvas
      autoSizeCanvas (setChildBoxes cloned final)

/-- `autoLayout` from layout.ts. -/
def autoLayout (diagram : Node) (options : Option LayoutOptions := none) : Node :=
  let opts := mergeOpts options
  let children := childBoxesL diagram
  let allExplicit := children.all (fun b =>
    b.x.isSome && b.y.isSome && b.width.isSome && b.height.isSome)
  if allExplicit && diagram.width.isSome && diagram.height.isSome then diagram
  else
    -- `JSON.parse(JSON.stringify(diagram))`: a value-identical deep copy
    let cloned := diagram
    let clonedConns := collectConnections cloned
    -- Step 1: auto-size leaf boxes and lay out container children
    let step1 := match cloned.children with
      | some (.arr es) => layoutStep1Entries es clonedConns opts
      | _ => []
    if step1.all (fun b => b.x.isSome && b.y.isSome) then
      autoSizeCanvas (setChildBoxes cloned step1)
    else
      autoLayoutRest cloned clonedConns opts step1

/-! ### Geometry predicates for the spec's totality property -/

/-- A box has complete concrete geometry. -/
def hasGeom (b : Node) : Bool :=
  b.x.isSome && b.y.isSome && b.width.isSome && b.height.isSome

-- Every box at every nesting depth (the node elements of children
-- arrays, recursively) has complete geometry.
mutual

def allBoxesGeomB : Node → Bool
  | .mk _ ch _ _ _ _ _ _ _ _ _ _ =>
    match ch with
    | some (.arr es) => entriesGeomB es
    | _ => true

def entriesGeomB : List Entry → Bool
  | [] => true
  | .str _ :: es => entriesGeomB es
  | .node n :: es => (hasGeom n && allBoxesGeomB n) && entriesGeomB es

end

/-- The fast-path precondition of `autoLayout`: every top-level box has
explicit x, y, width and height, and the diagram itself has explicit
width and height. -/
def fastPathCondB (d : Node) : Bool :=
  (childBoxesL d).all (fun b =>
    b.x.isSome && b.y.isSome && b.width.isSome && b.height.isSome) &&
  d.width.isSome && d.height.isSome

/-! ### Concrete inputs for the claims -/

/-- A leaf box with an id and text lines. -/
def textBox (i : String) (lines : List String) : Node :=
  .mk (some i) (some (.arr (lines.map Entry.str))) none none none none none
    none none none none none

/-- A bare box with an id and explicit geometry. -/
def geomBox (i : String) (px py w h : Int) : Node :=
  .mk (some i) none none none none none none
    (some px) (some py) (some w) (some h) none

/-- A diagram of six disconnected text boxes (the repository test
"arranges disconnected boxes in a grid when >4"). -/
def sixDisconnected : Node :=
  .mk none
    (some (.arr [.node (textBox "a" ["A"]), .node (textBox "b" ["B"]),
      .node (textBox "c" ["C"]), .node (textBox "d" ["D"]),
      .node (textBox "e" ["E"]), .node (textBox "f" ["F"])]))
    none none none none none none none none none none

/-- A container with one explicit-width child (`width: 10`) and one
auto-sized sibling. -/
def equalizeTree : Node :=
  .mk none
    (some (.arr [.node (.mk (some "p")
      (some (.arr [
        .node (.mk (some "a") none none none none none none none none (some 10) none none),
        .node (.mk (some "b") none none none none none none none none none none none)]))
      none none none none none none none none none none)]))
    none none none none none none none none none none

/-- A tree taking `autoLayout`'s fast path (root and every top-level box
fully explicit) that hides a geometry-less box one level deeper. -/
def fastPathNested : Node :=
  .mk none
    (some (.arr [.node (.mk (some "a")
      (some (.arr [.node (.mk (some "b") none none none none none none
        none none none none none)]))
      none none none none none (some 0) (some 0) (some 5) (some 3) none)]))
    none none none none none none none (some 10) (some 5) none

/-- A one-box tree with no geometry anywhere (used to witness the
amended totality theorem). -/
def oneAutoBox : Node :=
  .mk none (some (.arr [.node (textBox "a" ["Hello"])]))
    none none none none none none none none none none

/-- A fully explicit tree (root sizes plus one box with full geometry
containing another box with full geometry). -/
def fullyExplicitTree : Node :=
  .mk none
    (some (.arr [.node (.mk (some "a")
      (some (.arr [.node (geomBox "b" 1 1 4 3)]))
      none none none none none (some 0) (some 0) (some 12) (some 6) none)]))
    none none none none none none none (some 20) (some 10) none

/-- The straight-arrow literal scenario: boxes at `(0,0,5,3)` and
`(15,0,5,3)` on a 25 by 5 canvas. -/
def straightBoxes : List Node := [geomBox "a" 0 0 5 3, geomBox "b" 15 0 5 3]

def straightCanvas : Canvas :=
  let c := Canvas.new 25 5
  let c := drawBox c (geomBox "a" 0 0 5 3) 0 0 5 3
  let c := drawBox c (geomBox "b" 15 0 5 3) 15 0 5 3
  drawConnection c ⟨"a", "b", none, none, none⟩ straightBoxes none

/-- The junction-merge scenario (gateway, auth, orders of the repository
test "L-shape corner becomes tee when crossing a straight sibling
connection"). -/
def junctionBoxes : List Node :=
  [geomBox "gateway" 0 2 10 5, geomBox "auth" 20 2 10 5, geomBox "orders" 20 10 10 5]

def junctionConnStraight : Conn := ⟨"gateway", "auth", none, none, none⟩

def junctionConnL : Conn := ⟨"gateway", "orders", none, none, none⟩

def junctionBase : Canvas := Canvas.new 35 18

/-- Straight connection drawn first, then the L-shape. -/
def junctionStraightFirst : Canvas :=
  let c := drawConnection junctionBase junctionConnStraight junctionBoxes
    (some [junctionConnStraight, junctionConnL])
  drawConnection c junctionConnL junctionBoxes
    (some [junctionConnStraight, junctionConnL])

/-- L-shape drawn first, then the straight connection. -/
def junctionLFirst : Canvas :=
  let c := drawConnection junctionBase junctionConnL junctionBoxes
    (some [junctionConnStraight, junctionConnL])
  drawConnection c junctionConnStraight junctionBoxes
    (some [junctionConnStraight, junctionConnL])

/-- A node mixing text and box entries in one children array. -/
def mixedChildrenNode : Node :=
  .mk (some "m")
    (some (.arr [.str "caption", .node (geomBox "inner" 0 0 4 3), .str "footnote"]))
    none none none none none none none none none none

/-- A box carrying width, height, and complete geometry on all its
descendants (the state every processed child is in after
`layoutStep1Entries`). -/
def QBox (b : Node) : Prop :=
  b.width.isSome = true ∧ b.height.isSome = true ∧ allBoxesGeomB b = true

/-- A fully placed box: complete own geometry, complete descendant
geometry. -/
def GoodBox (b : Node) : Prop :=
  b.x.isSome = true ∧ b.y.isSome = true ∧ b.width.isSome = true ∧
  b.height.isSome = true ∧ allBoxesGeomB b = true

/-- The effect of one placement step on an indexed child: the index is
kept, x and y become concrete, nothing else moves. -/
def RPair (p q : Nat × Node) : Prop :=
  q.1 = p.1 ∧ q.2.x.isSome = true ∧ q.2.y.isSome = true ∧
  q.2.children = p.2.children ∧ q.2.width = p.2.width ∧ q.2.height = p.2.height

/-- A post-placement adjustment of an indexed child: index kept, x
untouched, y either freshly concrete or untouched, nothing else moves. -/
def CPair (p q : Nat × Node) : Prop :=
  q.1 = p.1 ∧ q.2.x = p.2.x ∧ (q.2.y.isSome = true ∨ q.2.y = p.2.y) ∧
  q.2.children = p.2.children ∧ q.2.width = p.2.width ∧ q.2.height = p.2.height

/-- Lift a pair relation to optional layer groups (holes stay holes). -/
def OptRel (R : (Nat × Node) → (Nat × Node) → Prop) :
    Option (List (Nat × Node)) → Option (List (Nat × Node)) → Prop
  | none, none => True
  | some g, some g' => List.Forall₂ R g g'
  | _, _ => False

/-! ## Theorems -/

set_option maxRecDepth 100000
set_option maxHeartbeats 1000000

theorem setX_x (b : Node) (v : Option Int) : (b.setX v).x = v := by cases b; rfl

theorem setX_y (b : Node) (v : Option Int) : (b.setX v).y = b.y := by cases b; rfl

theorem setX_width (b : Node) (v : Option Int) : (b.setX v).width = b.width := by
  cases b; rfl

theorem setX_height (b : Node) (v : Option Int) : (b.setX v).height = b.height := by
  cases b; rfl

theorem setX_children (b : Node) (v : Option Int) : (b.setX v).children = b.children := by
  cases b; rfl

theorem setY_x (b : Node) (v : Option Int) : (b.setY v).x = b.x := by cases b; rfl

theorem setY_y (b : Node) (v : Option Int) : (b.setY v).y = v := by cases b; rfl

theorem setY_width (b : Node) (v : Option Int) : (b.setY v).width = b.width := by
  cases b; rfl

theorem setY_height (b : Node) (v : Option Int) : (b.setY v).height = b.height := by
  cases b; rfl

theorem setY_children (b : Node) (v : Option Int) : (b.setY v).children = b.children := by
  cases b; rfl

theorem setWidth_x (b : Node) (v : Option Int) : (b.setWidth v).x = b.x := by
  cases b; rfl

theorem setWidth_y (b : Node) (v : Option Int) : (b.setWidth v).y = b.y := by
  cases b; rfl

theorem setWidth_width (b : Node) (v : Option Int) : (b.setWidth v).width = v := by
  cases b; rfl

theorem setWidth_height (b : Node) (v : Option Int) : (b.setWidth v).height = b.height := by
  cases b; rfl

theorem setWidth_children (b : Node) (v : Option Int) :
    (b.setWidth v).children = b.children := by cases b; rfl

theorem setHeight_x (b : Node) (v : Option Int) : (b.setHeight v).x = b.x := by
  cases b; rfl

theorem setHeight_y (b : Node) (v : Option Int) : (b.setHeight v).y = b.y := by
  cases b; rfl

theorem setHeight_width (b : Node) (v : Option Int) : (b.setHeight v).width = b.width := by
  cases b; rfl

theorem setHeight_height (b : Node) (v : Option Int) : (b.setHeight v).height = v := by
  cases b; rfl

theorem setHeight_children (b : Node) (v : Option Int) :
    (b.setHeight v).children = b.children := by cases b; rfl

/-- `allBoxesGeomB` looks only at the children field. -/
theorem allBoxesGeomB_congr {b b' : Node} (h : b'.children = b.children) :
    allBoxesGeomB b' = allBoxesGeomB b := by
  cases b with
  | mk i ch bd t s dis cd px py w hh cs =>
    cases b' with
    | mk i' ch' bd' t' s' dis' cd' px' py' w' hh' cs' =>
      simp only [Node.children] at h
      subst h
      rfl

theorem entriesGeomB_eq_all (es : List Entry) :
    entriesGeomB es =
      (es.filterMap entryNode?).all (fun n => hasGeom n && allBoxesGeomB n) := by
  induction es with
  | nil => rfl
  | cons e rest ih =>
    cases e with
    | str s => simpa [entriesGeomB, entryNode?] using ih
    | node n => simp [entriesGeomB, entryNode?, ih, List.all_cons]

theorem entriesGeomB_of_no_nodes {es : List Entry}
    (h : es.any (fun e => (entryNode? e).isSome) = false) :
    entriesGeomB es = true := by
  induction es with
  | nil => rfl
  | cons e rest ih =>
    cases e with
    | str s =>
      simp only [List.any_cons, entryNode?, Option.isSome_none, Bool.false_or] at h
      simpa [entriesGeomB] using ih h
    | node n => simp [List.any_cons, entryNode?] at h

theorem allBoxesGeomB_of_no_childBoxes {c : Node} (h : getChildBoxes c = none) :
    allBoxesGeomB c = true := by
  cases c with
  | mk i ch bd t s dis cd px py w hh cs =>
    cases ch with
    | none => rfl
    | some cv =>
      cases cv with
      | str s2 => rfl
      | arr es =>
        show entriesGeomB es = true
        simp only [getChildBoxes, Node.children] at h
        by_cases hemp : es.isEmpty
        · have : es = [] := by cases es with
            | nil => rfl
            | cons a l => simp [List.isEmpty] at hemp
          subst this; rfl
        · simp only [hemp, Bool.false_eq_true, if_false] at h
          by_cases hany : es.any (fun e => (entryNode? e).isSome)
          · simp [hany] at h
          · exact entriesGeomB_of_no_nodes (Bool.eq_false_iff.mpr hany)

theorem entriesGeomB_replaceNodes :
    ∀ (es : List Entry) (ns : List Node),
    (es.filterMap entryNode?).length = ns.length →
    (∀ b ∈ ns, hasGeom b = true ∧ allBoxesGeomB b = true) →
    entriesGeomB (replaceNodes es ns) = true
  | [], _, _, _ => rfl
  | .str s :: rest, ns, hlen, hall => by
    simp only [replaceNodes, entriesGeomB]
    refine entriesGeomB_replaceNodes rest ns ?_ hall
    simpa [entryNode?] using hlen
  | .node n :: rest, [], hlen, hall => by
    simp [entryNode?] at hlen
  | .node n :: rest, n2 :: ns', hlen, hall => by
    simp only [replaceNodes, entriesGeomB]
    have h2 := hall n2 (List.mem_cons_self _ _)
    rw [h2.1, h2.2]
    simp only [Bool.and_self, Bool.true_and]
    refine entriesGeomB_replaceNodes rest ns' ?_ (fun b hb => hall b (List.mem_cons_of_mem _ hb))
    simpa [entryNode?] using hlen

theorem setX_x_isSome (b : Node) (v : Int) : ((b.setX (some v)).x).isSome = true := by
  rw [setX_x]; rfl

theorem autoSizeBox_children (b : Node) (opts : ROpts) :
    (autoSizeBox b opts).children = b.children := by
  simp only [autoSizeBox]
  split <;> split <;> simp [setWidth_children, setHeight_children]

theorem autoSizeBox_x (b : Node) (opts : ROpts) : (autoSizeBox b opts).x = b.x := by
  simp only [autoSizeBox]
  split <;> split <;> simp [setWidth_x, setHeight_x]

theorem autoSizeBox_y (b : Node) (opts : ROpts) : (autoSizeBox b opts).y = b.y := by
  simp only [autoSizeBox]
  split <;> split <;> simp [setWidth_y, setHeight_y]

theorem autoSizeBox_width_isSome (b : Node) (opts : ROpts) :
    ((autoSizeBox b opts).width).isSome = true := by
  simp only [autoSizeBox]
  split <;> split <;>
    simp_all [setWidth_width, setHeight_width, Option.isSome_iff_ne_none]

theorem autoSizeBox_height_isSome (b : Node) (opts : ROpts) :
    ((autoSizeBox b opts).height).isSome = true := by
  simp only [autoSizeBox]
  split <;> split <;>
    simp_all [setHeight_height, Option.isSome_iff_ne_none]

/-- `equalizeWidths` either leaves the list alone or rewrites every
width-carrying child to one shared width. -/
theorem equalizeWidths_cases (cs : List Node) :
    equalizeWidths cs = cs ∨
    ∃ w : Int, equalizeWidths cs =
      cs.map (fun c => if c.width.isSome then c.setWidth (some w) else c) := by
  simp only [equalizeWidths]
  split
  · exact Or.inl rfl
  · split
    · exact Or.inr ⟨_, rfl⟩
    · exact Or.inl rfl

theorem equalizeWidths_forall2 (cs : List Node) :
    List.Forall₂ (fun c b => b.width.isSome = c.width.isSome ∧ b.height = c.height ∧
      b.children = c.children ∧ b.x = c.x ∧ b.y = c.y) cs (equalizeWidths cs) := by
  rcases equalizeWidths_cases cs with h | ⟨w, h⟩ <;> rw [h]
  · exact List.forall₂_same.mpr (fun c _ => ⟨rfl, rfl, rfl, rfl, rfl⟩)
  · rw [List.forall₂_map_right_iff]
    refine List.forall₂_same.mpr (fun c _ => ?_)
    by_cases hw : c.width.isSome <;>
      simp [hw, setWidth_width, setWidth_height, setWidth_children, setWidth_x, setWidth_y]

theorem layoutVerticalGo_forall2 (padLeft vGap : Int) :
    ∀ (cs : List Node) (curY : Int),
    List.Forall₂ (fun c b => b.x.isSome = true ∧ b.y.isSome = true ∧
      b.children = c.children ∧ b.width = c.width ∧ b.height = c.height)
      cs (layoutVerticalGo padLeft vGap cs curY)
  | [], _ => List.Forall₂.nil
  | c :: rest, curY => by
    simp only [layoutVerticalGo]
    refine List.Forall₂.cons ?_ (layoutVerticalGo_forall2 padLeft vGap rest _)
    set c1 := if c.x = none then c.setX (some padLeft) else c with hc1
    have h1x : c1.x.isSome = true := by
      rw [hc1]; split
      · simp [setX_x]
      · simp_all [Option.ne_none_iff_isSome]
    have h1rest : c1.y = c.y ∧ c1.children = c.children ∧ c1.width = c.width ∧
        c1.height = c.height := by
      rw [hc1]; split
      · exact ⟨setX_y c _, setX_children c _, setX_width c _, setX_height c _⟩
      · exact ⟨rfl, rfl, rfl, rfl⟩
    set c2 := if c1.y = none then c1.setY (some curY) else c1 with hc2
    have h2y : c2.y.isSome = true := by
      rw [hc2]; split
      · simp [setY_y]
      · simp_all [Option.ne_none_iff_isSome]
    have h2rest : c2.x = c1.x ∧ c2.children = c1.children ∧ c2.width = c1.width ∧
        c2.height = c1.height := by
      rw [hc2]; split
      · exact ⟨setY_x c1 _, setY_children c1 _, setY_width c1 _, setY_height c1 _⟩
      · exact ⟨rfl, rfl, rfl, rfl⟩
    exact ⟨by rw [h2rest.1]; exact h1x, h2y, by rw [h2rest.2.1, h1rest.2.1],
      by rw [h2rest.2.2.1, h1rest.2.2.1], by rw [h2rest.2.2.2, h1rest.2.2.2]⟩

theorem layoutVertical_forall2 (cs : List Node) (intraConns : List Conn) (opts : ROpts) :
    List.Forall₂ (fun c b => b.x.isSome = true ∧ b.y.isSome = true ∧
      b.children = c.children ∧ b.width = c.width ∧ b.height = c.height)
      cs (layoutVertical cs intraConns opts) :=
  layoutVerticalGo_forall2 _ _ cs _

theorem xyStep_x (c : Node) (px py : Int) :
    (if (if c.x = none then c.setX (some px) else c).y = none
     then (if c.x = none then c.setX (some px) else c).setY (some py)
     else (if c.x = none then c.setX (some px) else c)).x.isSome = true := by
  by_cases hx : c.x = none
  · rw [if_pos hx]
    split <;> simp [setY_x, setX_x]
  · rw [if_neg hx]
    split <;> simp_all [setY_x, Option.ne_none_iff_isSome]

theorem xyStep_y (c : Node) (px py : Int) :
    (if (if c.x = none then c.setX (some px) else c).y = none
     then (if c.x = none then c.setX (some px) else c).setY (some py)
     else (if c.x = none then c.setX (some px) else c)).y.isSome = true := by
  split <;> split <;> simp_all [setY_y, setX_y, Option.ne_none_iff_isSome]

theorem xyStep_children (c : Node) (px py : Int) :
    (if (if c.x = none then c.setX (some px) else c).y = none
     then (if c.x = none then c.setX (some px) else c).setY (some py)
     else (if c.x = none then c.setX (some px) else c)).children = c.children := by
  split <;> split <;> simp [setY_children, setX_children]

theorem xyStep_width (c : Node) (px py : Int) :
    (if (if c.x = none then c.setX (some px) else c).y = none
     then (if c.x = none then c.setX (some px) else c).setY (some py)
     else (if c.x = none then c.setX (some px) else c)).width = c.width := by
  split <;> split <;> simp [setY_width, setX_width]

theorem xyStep_height (c : Node) (px py : Int) :
    (if (if c.x = none then c.setX (some px) else c).y = none
     then (if c.x = none then c.setX (some px) else c).setY (some py)
     else (if c.x = none then c.setX (some px) else c)).height = c.height := by
  split <;> split <;> simp [setY_height, setX_height]

theorem placeColNested_forall2 (curX childVGap : Int) :
    ∀ (g : List (Nat × Node)) (curY maxW : Int),
    List.Forall₂ RPair g (placeColNested curX childVGap g curY maxW).1
  | [], _, _ => List.Forall₂.nil
  | (j, c) :: rest, curY, maxW => by
    simp only [placeColNested]
    refine List.Forall₂.cons ?_ (placeColNested_forall2 curX childVGap rest _ _)
    exact ⟨rfl, xyStep_x c curX curY, xyStep_y c curX curY,
      xyStep_children c curX curY, xyStep_width c curX curY, xyStep_height c curX curY⟩

theorem placeColTop_forall2 (vGap curX : Int) :
    ∀ (g : List (Nat × Node)) (curY maxW : Int),
    List.Forall₂ RPair g (placeColTop vGap curX g curY maxW).1
  | [], _, _ => List.Forall₂.nil
  | (j, c) :: rest, curY, maxW => by
    simp only [placeColTop]
    refine List.Forall₂.cons ?_ (placeColTop_forall2 vGap curX rest _ _)
    exact ⟨rfl, xyStep_x c curX curY, xyStep_y c curX curY,
      xyStep_children c curX curY, xyStep_width c curX curY, xyStep_height c curX curY⟩

theorem placeGroupsNested_rel (opts : ROpts) (childHGap childVGap : Int)
    (gaps : List Int) :
    ∀ (l : List (Nat × Option (List (Nat × Node)))) (curX : Int),
    List.Forall₂ (OptRel RPair) (l.map (fun p => p.2))
      (placeGroupsNested opts childHGap childVGap gaps l curX)
  | [], _ => List.Forall₂.nil
  | (i, g) :: rest, curX => by
    cases g with
    | none =>
      simp only [placeGroupsNested, List.map_cons]
      exact List.Forall₂.cons trivial (placeGroupsNested_rel opts childHGap childVGap gaps rest _)
    | some grp =>
      simp only [placeGroupsNested, List.map_cons]
      exact List.Forall₂.cons (placeColNested_forall2 _ _ grp _ _)
        (placeGroupsNested_rel opts childHGap childVGap gaps rest _)

theorem placeGroupsTop_rel (vGap defaultHGap : Int) (gaps : List Int) :
    ∀ (l : List (Nat × Option (List (Nat × Node)))) (curX : Int),
    List.Forall₂ (OptRel RPair) (l.map (fun p => p.2))
      (placeGroupsTop vGap defaultHGap gaps l curX).1
  | [], _ => List.Forall₂.nil
  | (i, g) :: rest, curX => by
    cases g with
    | none =>
      simp only [placeGroupsTop, List.map_cons]
      exact List.Forall₂.cons trivial (placeGroupsTop_rel vGap defaultHGap gaps rest _)
    | some grp =>
      simp only [placeGroupsTop, List.map_cons]
      exact List.Forall₂.cons (placeColTop_forall2 _ _ grp _ _)
        (placeGroupsTop_rel vGap defaultHGap gaps rest _)

theorem centerGroups_rel (maxHeight : Int) (columnHeights : List Int) :
    ∀ (gs : List (Option (List (Nat × Node)))) (li : Nat),
    List.Forall₂ (OptRel CPair) gs (centerGroups maxHeight columnHeights gs li)
  | [], _ => List.Forall₂.nil
  | none :: rest, li => by
    simp only [centerGroups]
    exact List.Forall₂.cons trivial (centerGroups_rel maxHeight columnHeights rest _)
  | some g :: rest, li => by
    simp only [centerGroups]
    refine List.Forall₂.cons ?_ (centerGroups_rel maxHeight columnHeights rest _)
    have hid : OptRel CPair (some g) (some g) :=
      List.forall₂_same.mpr (fun p _ => ⟨rfl, rfl, Or.inr rfl, rfl, rfl, rfl⟩)
    split
    · split
      · show List.Forall₂ CPair g (List.map _ g)
        rw [List.forall₂_map_right_iff]
        refine List.forall₂_same.mpr (fun p _ => ?_)
        exact ⟨rfl, setY_x p.2 _, Or.inl (by rw [setY_y]; rfl),
          setY_children p.2 _, setY_width p.2 _, setY_height p.2 _⟩
      · exact hid
    · exact hid

theorem rel_mem_right {α β : Type} {R : α → β → Prop} :
    ∀ {l : List α} {l' : List β}, List.Forall₂ R l l' → ∀ {b : β}, b ∈ l' →
    ∃ a ∈ l, R a b := by
  intro l l' h
  induction h with
  | nil => intro b hb; exact absurd hb (List.not_mem_nil _)
  | cons hr _ ih =>
    intro b hb
    rcases List.mem_cons.mp hb with hb | hb
    · exact ⟨_, List.mem_cons_self _ _, hb ▸ hr⟩
    · obtain ⟨a, ha, har⟩ := ih hb
      exact ⟨a, List.mem_cons_of_mem _ ha, har⟩

theorem rel_mem_left {α β : Type} {R : α → β → Prop} :
    ∀ {l : List α} {l' : List β}, List.Forall₂ R l l' → ∀ {a : α}, a ∈ l →
    ∃ b ∈ l', R a b := by
  intro l l' h
  induction h with
  | nil => intro a ha; exact absurd ha (List.not_mem_nil _)
  | cons hr _ ih =>
    intro a ha
    rcases List.mem_cons.mp ha with ha | ha
    · exact ⟨_, List.mem_cons_self _ _, ha ▸ hr⟩
    · obtain ⟨b, hb, hbr⟩ := ih ha
      exact ⟨b, List.mem_cons_of_mem _ hb, hbr⟩

theorem mem_flattenGroups {q : Nat × Node} :
    ∀ {gs : List (Option (List (Nat × Node)))},
    q ∈ flattenGroups gs ↔ ∃ g ∈ gs, q ∈ g.getD [] := by
  intro gs
  induction gs with
  | nil => simp [flattenGroups]
  | cons g rest ih =>
    simp only [flattenGroups, List.mem_append, ih, List.mem_cons]
    constructor
    · rintro (h | ⟨g', hg', hq⟩)
      · exact ⟨g, Or.inl rfl, h⟩
      · exact ⟨g', Or.inr hg', hq⟩
    · rintro ⟨g', hg' | hg', hq⟩
      · exact Or.inl (hg' ▸ hq)
      · exact Or.inr ⟨g', hg', hq⟩

theorem flatten_rel_right {R : (Nat × Node) → (Nat × Node) → Prop} :
    ∀ {gs gs' : List (Option (List (Nat × Node)))},
    List.Forall₂ (OptRel R) gs gs' →
    ∀ {q : Nat × Node}, q ∈ flattenGroups gs' → ∃ p ∈ flattenGroups gs, R p q := by
  intro gs gs' h
  induction h with
  | nil => intro q hq; exact absurd hq (List.not_mem_nil _)
  | @cons g g' rest rest' hr _ ih =>
    intro q hq
    rcases List.mem_append.mp hq with hq | hq
    · cases g with
      | none =>
        cases g' with
        | none => exact absurd hq (List.not_mem_nil _)
        | some l' => exact absurd hr (by simp [OptRel])
      | some l =>
        cases g' with
        | none => exact absurd hq (List.not_mem_nil _)
        | some l' =>
          obtain ⟨p, hp, hpr⟩ := rel_mem_right hr hq
          exact ⟨p, List.mem_append.mpr (Or.inl hp), hpr⟩
    · obtain ⟨p, hp, hpr⟩ := ih hq
      exact ⟨p, List.mem_append.mpr (Or.inr hp), hpr⟩

theorem flatten_rel_left {R : (Nat × Node) → (Nat × Node) → Prop} :
    ∀ {gs gs' : List (Option (List (Nat × Node)))},
    List.Forall₂ (OptRel R) gs gs' →
    ∀ {p : Nat × Node}, p ∈ flattenGroups gs → ∃ q ∈ flattenGroups gs', R p q := by
  intro gs gs' h
  induction h with
  | nil => intro p hp; exact absurd hp (List.not_mem_nil _)
  | @cons g g' rest rest' hr _ ih =>
    intro p hp
    rcases List.mem_append.mp hp with hp | hp
    · cases g with
      | none => exact absurd hp (List.not_mem_nil _)
      | some l =>
        cases g' with
        | none => exact absurd hr (by simp [OptRel])
        | some l' =>
          obtain ⟨q, hq, hqr⟩ := rel_mem_left hr hp
          exact ⟨q, List.mem_append.mpr (Or.inl hq), hqr⟩
    · obtain ⟨q, hq, hqr⟩ := ih hp
      exact ⟨q, List.mem_append.mpr (Or.inr hq), hqr⟩

theorem insertLE_perm {α : Type} (le : α → α → Bool) (a : α) :
    ∀ l : List α, (insertLE le a l).Perm (a :: l)
  | [] => List.Perm.refl _
  | b :: l => by
    simp only [insertLE]
    split
    · exact ((insertLE_perm le a l).cons b).trans (List.Perm.swap a b l)
    · exact List.Perm.refl _

theorem sortByLE_fold_perm {α : Type} (le : α → α → Bool) :
    ∀ (l acc : List α), (l.foldl (fun acc a => insertLE le a acc) acc).Perm (l ++ acc)
  | [], acc => List.Perm.refl _
  | a :: l, acc => by
    simp only [List.foldl_cons, List.cons_append]
    refine (sortByLE_fold_perm le l (insertLE le a acc)).trans ?_
    exact (List.Perm.append_left l (insertLE_perm le a acc)).trans List.perm_middle

theorem sortByLE_perm {α : Type} (le : α → α → Bool) (l : List α) :
    (sortByLE le l).Perm l := by
  simpa using sortByLE_fold_perm le l []

theorem map_snd_map_pair {α β : Type} (f : α → β) (l : List α) :
    (l.map (fun p => (f p, p))).map (fun q : β × α => q.2) = l := by
  induction l with
  | nil => rfl
  | cons a t ih => simp only [List.map_cons, ih]

theorem sortOneLayer_perm (conns : List Conn) (c2p : List (String × String))
    (prev : Option (List (Nat × Node))) (g : List (Nat × Node)) :
    (sortOneLayer conns c2p prev g).Perm g := by
  unfold sortOneLayer
  refine (List.Perm.map _ (sortByLE_perm _ _)).trans ?_
  rw [map_snd_map_pair]

theorem sortLayers_perm (conns : List Conn) (c2p : List (String × String)) :
    ∀ (prev : Option (List (Nat × Node))) (gs : List (Option (List (Nat × Node)))),
    List.Forall₂ (fun g g' => (Option.getD g []).Perm (Option.getD g' [])) gs
      (sortLayers conns c2p prev gs)
  | _, [] => List.Forall₂.nil
  | prev, g :: rest => by
    cases g with
    | none =>
      simp only [sortLayers]
      exact List.Forall₂.cons (List.Perm.refl _) (sortLayers_perm conns c2p _ rest)
    | some l =>
      simp only [sortLayers]
      by_cases hlen : l.length ≤ 1
      · rw [if_pos hlen]
        exact List.Forall₂.cons (List.Perm.refl _) (sortLayers_perm conns c2p _ rest)
      · rw [if_neg hlen]
        exact List.Forall₂.cons ((sortOneLayer_perm conns c2p prev l).symm)
          (sortLayers_perm conns c2p _ rest)

theorem flatten_perm {gs gs' : List (Option (List (Nat × Node)))}
    (h : List.Forall₂ (fun g g' => (Option.getD g []).Perm (Option.getD g' [])) gs gs') :
    (flattenGroups gs).Perm (flattenGroups gs') := by
  induction h with
  | nil => exact List.Perm.refl _
  | cons hr _ ih => exact hr.append ih

theorem flattenGroups_map_single :
    ∀ g : List (Nat × Node), flattenGroups (g.map (fun p => some [p])) = g
  | [] => rfl
  | p :: rest => by
    simp only [List.map_cons, flattenGroups, Option.getD_some, List.singleton_append]
    rw [flattenGroups_map_single rest]

theorem foldl_max_init : ∀ (l : List Nat) (init : Nat), init ≤ l.foldl max init
  | [], _ => le_rfl
  | a :: t, init =>
    le_trans (le_max_left init a) (foldl_max_init t (max init a))

theorem foldl_max_mem {x : Nat} :
    ∀ (l : List Nat) (init : Nat), x ∈ l → x ≤ l.foldl max init
  | a :: t, init, hx => by
    rcases List.mem_cons.mp hx with h | h
    · subst h
      exact le_trans (le_max_right init x) (foldl_max_init t (max init x))
    · exact foldl_max_mem t (max init a) h

theorem groupByKey_coverage (key : Node → Nat) (children : List Node) :
    ∀ p ∈ children.enum, p ∈ flattenGroups (groupByKey key children) := by
  intro p hp
  unfold groupByKey
  have hne : children.isEmpty = false := by
    cases children with
    | nil => simp at hp
    | cons a t => rfl
  rw [hne]
  simp only [Bool.false_eq_true, if_false]
  rw [mem_flattenGroups]
  have hk : key p.2 ≤ (children.enum.map (fun q => key q.2)).foldl max 0 :=
    foldl_max_mem _ 0 (List.mem_map.mpr ⟨p, hp, rfl⟩)
  refine ⟨_, List.mem_map.mpr ⟨key p.2, List.mem_range.mpr (by omega), rfl⟩, ?_⟩
  have hpf : p ∈ children.enum.filter (fun q => key q.2 == key p.2) :=
    List.mem_filter.mpr ⟨hp, by simp⟩
  have hfe : (children.enum.filter (fun q => key q.2 == key p.2)).isEmpty = false := by
    cases hl : children.enum.filter (fun q => key q.2 == key p.2) with
    | nil => rw [hl] at hpf; simp at hpf
    | cons a t => rfl
  rw [hfe]
  simpa using hpf

theorem groupByKey_sound (key : Node → Nat) (children : List Node) :
    ∀ p ∈ flattenGroups (groupByKey key children), p ∈ children.enum := by
  intro p hp
  unfold groupByKey at hp
  by_cases hne : children.isEmpty
  · rw [hne] at hp
    simp [flattenGroups] at hp
  · rw [Bool.eq_false_iff.mpr hne] at hp
    simp only [Bool.false_eq_true, if_false] at hp
    rw [mem_flattenGroups] at hp
    obtain ⟨g, hg, hpg⟩ := hp
    obtain ⟨i, _, rfl⟩ := List.mem_map.mp hg
    by_cases hfe : (children.enum.filter (fun q => key q.2 == i)).isEmpty
    · rw [hfe] at hpg
      simp at hpg
    · rw [Bool.eq_false_iff.mpr hfe] at hpg
      simp only [Bool.false_eq_true, if_false, Option.getD_some] at hpg
      exact (List.mem_filter.mp hpg).1

theorem enum_fst_lt {l : List Node} {p : Nat × Node} (hp : p ∈ l.enum) :
    p.1 < l.length := by
  obtain ⟨i, x⟩ := p
  rw [List.mk_mem_enum_iff_getElem?] at hp
  exact (List.getElem?_eq_some.mp hp).1

theorem enum_snd_mem {l : List Node} {p : Nat × Node} (hp : p ∈ l.enum) :
    p.2 ∈ l := by
  obtain ⟨i, x⟩ := p
  rw [List.mk_mem_enum_iff_getElem?] at hp
  obtain ⟨h1, h2⟩ := List.getElem?_eq_some.mp hp
  exact h2 ▸ List.getElem_mem h1

theorem applyAssign_length (children : List Node) (assignments : List (Nat × Node)) :
    (applyAssign children assignments).length = children.length := by
  simp [applyAssign]

theorem applyAssign_good {children : List Node} {assignments : List (Nat × Node)}
    (hgood : ∀ q ∈ assignments, GoodBox q.2)
    (hcov : ∀ j, j < children.length → ∃ q ∈ assignments, q.1 = j) :
    ∀ b ∈ applyAssign children assignments, GoodBox b := by
  intro b hb
  unfold applyAssign at hb
  obtain ⟨p, hp, hpb⟩ := List.mem_map.mp hb
  obtain ⟨q, hq, hq1⟩ := hcov p.1 (enum_fst_lt hp)
  have hfind : (assignments.find? (fun r => r.1 == p.1)).isSome = true := by
    rw [List.find?_isSome]
    exact ⟨q, hq, by simp [hq1]⟩
  cases hfq : assignments.find? (fun r => r.1 == p.1) with
  | none => rw [hfq] at hfind; simp at hfind
  | some r =>
    rw [hfq] at hpb
    simp only at hpb
    exact hpb ▸ hgood r (List.mem_of_find?_eq_some hfq)

theorem rpair_good {p q : Nat × Node} (hp : QBox p.2) (hr : RPair p q) : GoodBox q.2 := by
  obtain ⟨_, hx, hy, hch, hw, hh⟩ := hr
  obtain ⟨hqw, hqh, hqa⟩ := hp
  exact ⟨hx, hy, by rw [hw]; exact hqw, by rw [hh]; exact hqh,
    by rw [allBoxesGeomB_congr hch]; exact hqa⟩

theorem cpair_good {p q : Nat × Node} (hp : GoodBox p.2) (hc : CPair p q) : GoodBox q.2 := by
  obtain ⟨_, hx, hy, hch, hw, hh⟩ := hc
  obtain ⟨hpx, hpy, hpw, hph, hpa⟩ := hp
  refine ⟨by rw [hx]; exact hpx, ?_, by rw [hw]; exact hpw, by rw [hh]; exact hph,
    by rw [allBoxesGeomB_congr hch]; exact hpa⟩
  rcases hy with hy | hy
  · exact hy
  · rw [hy]; exact hpy

theorem good_to_has {b : Node} (h : GoodBox b) :
    hasGeom b = true ∧ allBoxesGeomB b = true := by
  obtain ⟨hx, hy, hw, hh, ha⟩ := h
  exact ⟨by simp [hasGeom, hx, hy, hw, hh], ha⟩

theorem equalizeWidths_good {cs : List Node} (hq : ∀ b ∈ cs, QBox b) :
    (∀ b ∈ equalizeWidths cs, QBox b) ∧ (equalizeWidths cs).length = cs.length := by
  have h2 := equalizeWidths_forall2 cs
  constructor
  · intro b hb
    obtain ⟨c, hc, hw, hh, hch, _, _⟩ := rel_mem_right h2 hb
    obtain ⟨hcw, hch2, hca⟩ := hq c hc
    exact ⟨by rw [hw]; exact hcw, by rw [hh]; exact hch2,
      by rw [allBoxesGeomB_congr hch]; exact hca⟩
  · exact (List.Forall₂.length_eq h2).symm

theorem layoutVertical_good {cs : List Node} {intraConns : List Conn} {opts : ROpts}
    (hq : ∀ b ∈ cs, QBox b) :
    (∀ b ∈ layoutVertical cs intraConns opts, GoodBox b) ∧
    (layoutVertical cs intraConns opts).length = cs.length := by
  have h2 := layoutVertical_forall2 cs intraConns opts
  constructor
  · intro b hb
    obtain ⟨c, hc, hx, hy, hch, hw, hh⟩ := rel_mem_right h2 hb
    obtain ⟨hcw, hch2, hca⟩ := hq c hc
    exact ⟨hx, hy, by rw [hw]; exact hcw, by rw [hh]; exact hch2,
      by rw [allBoxesGeomB_congr hch]; exact hca⟩
  · exact (List.Forall₂.length_eq h2).symm

theorem layout_assign_good {children : List Node} (key : Node → Nat)
    (opts : ROpts) (childHGap childVGap : Int) (gaps : List Int) (curX : Int)
    (hq : ∀ b ∈ children, QBox b) :
    ∀ b ∈ applyAssign children (flattenGroups
      (placeGroupsNested opts childHGap childVGap gaps (groupByKey key children).enum curX)),
    GoodBox b := by
  have hrel0 := placeGroupsNested_rel opts childHGap childVGap gaps
    (groupByKey key children).enum curX
  have hmapsnd : ((groupByKey key children).enum.map (fun p => p.2)) =
      groupByKey key children := List.enum_map_snd _
  rw [hmapsnd] at hrel0
  refine applyAssign_good ?_ ?_
  · intro q hmemq
    obtain ⟨p, hpf, hRP⟩ := flatten_rel_right hrel0 hmemq
    have hpe := groupByKey_sound key children p hpf
    exact rpair_good (hq p.2 (enum_snd_mem hpe)) hRP
  · intro j hj
    have hen : (j, children.get ⟨j, hj⟩) ∈ children.enum := by
      rw [List.mk_mem_enum_iff_getElem?, List.get_eq_getElem]
      exact List.getElem?_eq_getElem hj
    have hpf := groupByKey_coverage key children _ hen
    obtain ⟨q, hqf, hRP⟩ := flatten_rel_left hrel0 hpf
    exact ⟨q, hqf, hRP.1⟩

theorem layoutHorizontal_good {children : List Node} {intraConns : List Conn}
    {opts : ROpts} (hq : ∀ b ∈ children, QBox b) :
    (∀ b ∈ layoutHorizontal children intraConns opts, GoodBox b) ∧
    (layoutHorizontal children intraConns opts).length = children.length := by
  constructor
  · intro b hb
    unfold layoutHorizontal at hb
    exact layout_assign_good _ _ _ _ _ _ hq b hb
  · unfold layoutHorizontal
    exact applyAssign_length _ _

theorem no_nodes_of_filterMap_empty {es : List Entry}
    (h : (es.filterMap entryNode?).isEmpty = true) :
    es.any (fun e => (entryNode? e).isSome) = false := by
  rw [List.isEmpty_iff] at h
  rw [List.any_eq_false]
  intro e he
  have h2 := (List.filterMap_eq_nil_iff.mp h) e he
  simp [h2]

/-- All descendant boxes of a tree on the fast path have complete
geometry, so in particular every top-level box does. -/
theorem allBoxesGeomB_mk_arr (i : Option String) (es : List Entry)
    (bd : Option BStyle) (t : Option String) (s d : Option Bool) (cd : Option CDir)
    (px py w h : Option Int) (cs : Option (List Conn)) :
    allBoxesGeomB (.mk i (some (.arr es)) bd t s d cd px py w h cs) =
      entriesGeomB es := rfl

theorem sizeOf_arr_lt (i : Option String) (es : List Entry)
    (bd : Option BStyle) (t : Option String) (s d : Option Bool) (cd : Option CDir)
    (px py w h : Option Int) (cs : Option (List Conn)) :
    sizeOf es < sizeOf (Node.mk i (some (.arr es)) bd t s d cd px py w h cs) := by
  simp only [Node.mk.sizeOf_spec, Option.some.sizeOf_spec, ChildrenVal.arr.sizeOf_spec]
  omega

/-- The joint totality statement for `layoutChildren` and
`layoutStep1Entries`, by strong induction on the size of the processed
subtree: a laid-out container has complete geometry on all its
descendants, and every processed child carries width, height and
complete descendant geometry. -/
theorem layoutGeom_main : ∀ n : Nat,
    (∀ (parent : Node) (conns : List Conn) (opts : ROpts), sizeOf parent ≤ n →
      allBoxesGeomB (layoutChildren parent conns opts) = true) ∧
    (∀ (es : List Entry) (conns : List Conn) (opts : ROpts), sizeOf es ≤ n →
      (∀ b ∈ layoutStep1Entries es conns opts, QBox b) ∧
      (layoutStep1Entries es conns opts).length = (es.filterMap entryNode?).length) := by
  intro n
  induction n using Nat.strong_induction_on with
  | _ n ih =>
    constructor
    · intro parent conns opts hsz
      cases parent with
      | mk i ch bd t s d cd px py w h cs =>
        cases ch with
        | none => rfl
        | some cv =>
          cases cv with
          | str s2 => rfl
          | arr es =>
            have hszes : sizeOf es < n := by
              have h2 := sizeOf_arr_lt i es bd t s d cd px py w h cs
              omega
            have hstep1 := (ih (sizeOf es) hszes).2 es conns opts le_rfl
            simp only [layoutChildren]
            by_cases hemp : (es.filterMap entryNode?).isEmpty = true
            · rw [if_pos hemp]
              exact entriesGeomB_of_no_nodes (no_nodes_of_filterMap_empty hemp)
            · rw [if_neg hemp]
              rw [allBoxesGeomB_mk_arr]
              have hq2 := (equalizeWidths_good hstep1.1).1
              have hlen2 := (equalizeWidths_good hstep1.1).2
              refine entriesGeomB_replaceNodes es _ ?_ ?_
              · by_cases hcd : cd = some CDir.vertical
                · rw [if_pos hcd, (layoutVertical_good hq2).2, hlen2, hstep1.2]
                · rw [if_neg hcd, (layoutHorizontal_good hq2).2, hlen2, hstep1.2]
              · intro b hb
                by_cases hcd : cd = some CDir.vertical
                · rw [if_pos hcd] at hb
                  exact good_to_has ((layoutVertical_good hq2).1 b hb)
                · rw [if_neg hcd] at hb
                  exact good_to_has ((layoutHorizontal_good hq2).1 b hb)
    · intro es conns opts hsz
      cases es with
      | nil =>
        exact ⟨fun b hb => absurd hb (List.not_mem_nil _), rfl⟩
      | cons e rest =>
        have hszrest : sizeOf rest < n := by
          have h2 : sizeOf rest < sizeOf (e :: rest) := by
            simp only [List.cons.sizeOf_spec]; omega
          omega
        have hrest := (ih (sizeOf rest) hszrest).2 rest conns opts le_rfl
        cases e with
        | str s2 =>
          simp only [layoutStep1Entries, List.filterMap_cons, entryNode?]
          exact hrest
        | node c =>
          have hszc : sizeOf c < n := by
            have h2 : sizeOf c < sizeOf (Entry.node c :: rest) := by
              simp only [List.cons.sizeOf_spec, Entry.node.sizeOf_spec]; omega
            omega
          simp only [layoutStep1Entries, List.filterMap_cons, entryNode?]
          constructor
          · intro b hb
            rcases List.mem_cons.mp hb with hb | hb
            · subst hb
              refine ⟨autoSizeBox_width_isSome _ _, autoSizeBox_height_isSome _ _, ?_⟩
              rw [allBoxesGeomB_congr (autoSizeBox_children _ _)]
              by_cases hcb : (getChildBoxes c).isSome = true
              · rw [if_pos hcb]
                exact (ih (sizeOf c) hszc).1 c conns opts le_rfl
              · rw [if_neg hcb]
                exact allBoxesGeomB_of_no_childBoxes (Option.not_isSome_iff_eq_none.mp hcb)
            · exact hrest.1 b hb
          · simp only [List.length_cons]
            rw [hrest.2]

theorem layoutChildren_geom (parent : Node) (conns : List Conn) (opts : ROpts) :
    allBoxesGeomB (layoutChildren parent conns opts) = true :=
  (layoutGeom_main (sizeOf parent)).1 parent conns opts le_rfl

theorem layoutStep1_good (es : List Entry) (conns : List Conn) (opts : ROpts) :
    (∀ b ∈ layoutStep1Entries es conns opts, QBox b) ∧
    (layoutStep1Entries es conns opts).length = (es.filterMap entryNode?).length :=
  (layoutGeom_main (sizeOf es)).2 es conns opts le_rfl

theorem childBoxesL_arr (i : Option String) (es : List Entry)
    (bd : Option BStyle) (t : Option String) (s d : Option Bool) (cd : Option CDir)
    (px py w h : Option Int) (cs : Option (List Conn)) :
    childBoxesL (.mk i (some (.arr es)) bd t s d cd px py w h cs) =
      es.filterMap entryNode? := by
  simp only [childBoxesL, getChildBoxes, Node.children]
  by_cases hemp : es.isEmpty = true
  · rw [if_pos hemp]
    have h2 : es = [] := List.isEmpty_iff.mp hemp
    subst h2
    rfl
  · rw [if_neg hemp]
    by_cases hany : es.any (fun e => (entryNode? e).isSome) = true
    · rw [if_pos hany]
      rfl
    · rw [if_neg hany]
      have h2 : es.filterMap entryNode? = [] := by
        rw [List.filterMap_eq_nil_iff]
        intro e he
        have h3 := List.any_eq_false.mp (Bool.eq_false_iff.mpr hany) e he
        exact Option.not_isSome_iff_eq_none.mp h3
      rw [h2]
      rfl

theorem allBoxesGeomB_setChildBoxes (cloned : Node) (lst : List Node)
    (hlen : (childBoxesL cloned).length = lst.length)
    (hall : ∀ b ∈ lst, hasGeom b = true ∧ allBoxesGeomB b = true) :
    allBoxesGeomB (setChildBoxes cloned lst) = true := by
  cases cloned with
  | mk i ch bd t s d cd px py w h cs =>
    cases ch with
    | none => rfl
    | some cv =>
      cases cv with
      | str s2 => rfl
      | arr es =>
        show allBoxesGeomB ((Node.mk i (some (ChildrenVal.arr es)) bd t s d cd px py w h
          cs).setChildren (some (.arr (replaceNodes es lst)))) = true
        simp only [Node.setChildren]
        rw [allBoxesGeomB_mk_arr]
        refine entriesGeomB_replaceNodes es lst ?_ hall
        rw [← childBoxesL_arr i es bd t s d cd px py w h cs]
        exact hlen

theorem autoSizeCanvas_children (c : Node) : (autoSizeCanvas c).children = c.children := by
  simp only [autoSizeCanvas]
  split <;> split <;> simp [setWidth_children, setHeight_children]

theorem autoSizeCanvas_width_isSome (c : Node) :
    ((autoSizeCanvas c).width).isSome = true := by
  simp only [autoSizeCanvas]
  split <;> split <;>
    simp_all [setWidth_width, setHeight_width, Option.isSome_iff_ne_none]

theorem autoSizeCanvas_height_isSome (c : Node) :
    ((autoSizeCanvas c).height).isSome = true := by
  simp only [autoSizeCanvas]
  split <;> split <;>
    simp_all [setHeight_height, Option.isSome_iff_ne_none]

/-- A diagram whose children array has been replaced by fully placed
boxes and which was then canvas-sized has total geometry and concrete
root width and height. -/
theorem sized_result_good (cloned : Node) (lst : List Node)
    (hlen : (childBoxesL cloned).length = lst.length)
    (hall : ∀ b ∈ lst, hasGeom b = true ∧ allBoxesGeomB b = true) :
    allBoxesGeomB (autoSizeCanvas (setChildBoxes cloned lst)) = true ∧
    ((autoSizeCanvas (setChildBoxes cloned lst)).width).isSome = true ∧
    ((autoSizeCanvas (setChildBoxes cloned lst)).height).isSome = true := by
  refine ⟨?_, autoSizeCanvas_width_isSome _, autoSizeCanvas_height_isSome _⟩
  rw [allBoxesGeomB_congr (autoSizeCanvas_children _)]
  exact allBoxesGeomB_setChildBoxes cloned lst hlen hall

theorem sortStage_rel (conns : List Conn) (c2p : List (String × String))
    (gs : List (Option (List (Nat × Node)))) :
    List.Forall₂ (fun g g' => (Option.getD g []).Perm (Option.getD g' [])) gs
      (sortStage conns c2p gs) := by
  cases gs with
  | nil => exact List.Forall₂.nil
  | cons g0 rest =>
    exact List.Forall₂.cons (List.Perm.refl _) (sortLayers_perm conns c2p g0 rest)

theorem spreadStage_flatten (hTE : Bool) (gs : List (Option (List (Nat × Node)))) :
    flattenGroups (spreadStage hTE gs) = flattenGroups gs := by
  unfold spreadStage
  split
  · split
    · rename_i g heq
      split
      · rw [flattenGroups_map_single]
        simp [flattenGroups]
      · rfl
    · rfl
  · rfl

/-- The good-box and index-coverage facts about the whole top-level
placement chain: group, spread, sort, place, centre. -/
theorem top_stage_good (step1 : List Node) (key : Node → Nat)
    (hTE : Bool) (conns : List Conn) (c2p : List (String × String))
    (vGap dHG : Int) (gaps : List Int) (mh : Int) (colH : List Int)
    (hq : ∀ b ∈ step1, QBox b) :
    (∀ q ∈ flattenGroups (centerGroups mh colH
        (placeGroupsTop vGap dHG gaps
          ((sortStage conns c2p (spreadStage hTE (groupByKey key step1))).enum) 0).1 0),
      GoodBox q.2) ∧
    (∀ j, j < step1.length → ∃ q ∈ flattenGroups (centerGroups mh colH
        (placeGroupsTop vGap dHG gaps
          ((sortStage conns c2p (spreadStage hTE (groupByKey key step1))).enum) 0).1 0),
      q.1 = j) := by
  have hsprd := spreadStage_flatten hTE (groupByKey key step1)
  have hsortperm := flatten_perm (sortStage_rel conns c2p (spreadStage hTE (groupByKey key step1)))
  have hplace := placeGroupsTop_rel vGap dHG gaps
    ((sortStage conns c2p (spreadStage hTE (groupByKey key step1))).enum) 0
  have hmapsnd : (((sortStage conns c2p (spreadStage hTE (groupByKey key step1))).enum).map
      (fun p => p.2)) = sortStage conns c2p (spreadStage hTE (groupByKey key step1)) :=
    List.enum_map_snd _
  rw [hmapsnd] at hplace
  have hcent := centerGroups_rel mh colH
    (placeGroupsTop vGap dHG gaps
      ((sortStage conns c2p (spreadStage hTE (groupByKey key step1))).enum) 0).1 0
  constructor
  · intro q hqm
    obtain ⟨q', hq', hCP⟩ := flatten_rel_right hcent hqm
    obtain ⟨p, hp, hRP⟩ := flatten_rel_right hplace hq'
    have hp1 : p ∈ flattenGroups (spreadStage hTE (groupByKey key step1)) :=
      hsortperm.symm.subset hp
    rw [hsprd] at hp1
    have hpe := groupByKey_sound key step1 p hp1
    exact cpair_good (rpair_good (hq p.2 (enum_snd_mem hpe)) hRP) hCP
  · intro j hj
    have hen : (j, step1.get ⟨j, hj⟩) ∈ step1.enum := by
      rw [List.mk_mem_enum_iff_getElem?, List.get_eq_getElem]
      exact List.getElem?_eq_getElem hj
    have hpf := groupByKey_coverage key step1 _ hen
    rw [← hsprd] at hpf
    have hpf2 : (j, step1.get ⟨j, hj⟩) ∈
        flattenGroups (sortStage conns c2p (spreadStage hTE (groupByKey key step1))) :=
      hsortperm.subset hpf
    obtain ⟨q', hq', hRP⟩ := flatten_rel_left hplace hpf2
    obtain ⟨q, hqm, hCP⟩ := flatten_rel_left hcent hq'
    exact ⟨q, hqm, by rw [hCP.1, hRP.1]⟩

/-- The slow top-level path produces complete geometry on every box at
every depth and a sized root, given well-processed step-1 children. -/
theorem autoLayoutRest_good (cloned : Node) (clonedConns : List Conn) (opts : ROpts)
    (step1 : List Node) (hq : ∀ b ∈ step1, QBox b)
    (hlen : (childBoxesL cloned).length = step1.length) :
    allBoxesGeomB (autoLayoutRest cloned clonedConns opts step1) = true ∧
    ((autoLayoutRest cloned clonedConns opts step1).width).isSome = true ∧
    ((autoLayoutRest cloned clonedConns opts step1).height).isSome = true := by
  unfold autoLayoutRest
  refine sized_result_good cloned _ ?_ ?_
  · rw [applyAssign_length]
    exact hlen
  · intro b hb
    exact good_to_has (applyAssign_good (top_stage_good step1 _ _ _ _ _ _ _ _ _ hq).1
      (top_stage_good step1 _ _ _ _ _ _ _ _ _ hq).2 b hb)

theorem allBoxesGeomB_children {d : Node} (h : allBoxesGeomB d = true) :
    (childBoxesL d).all (fun b => hasGeom b && allBoxesGeomB b) = true := by
  cases d with
  | mk i ch bd t s dis cd px py w hh cs =>
    cases ch with
    | none => simp [childBoxesL, getChildBoxes, Node.children]
    | some cv =>
      cases cv with
      | str s2 => simp [childBoxesL, getChildBoxes, Node.children]
      | arr es =>
        have hes : entriesGeomB es = true := h
        rw [entriesGeomB_eq_all] at hes
        simp only [childBoxesL, getChildBoxes, Node.children]
        by_cases hemp : es.isEmpty
        · simp [hemp]
        · by_cases hany : es.any (fun e => (entryNode? e).isSome)
          · simpa [hemp, hany] using hes
          · simp [hemp, hany]

/-- C4.  Fast-path idempotence: when every box at every nesting depth
already has x, y, width and height and the root has width and height,
`autoLayout` returns the input tree itself (deep equality is immediate:
it is the same value). -/
theorem c4_fast_path_idempotent (d : Node) (options : Option LayoutOptions)
    (hall : allBoxesGeomB d = true)
    (hw : d.width.isSome = true) (hh : d.height.isSome = true) :
    autoLayout d options = d := by
  have h1 : (childBoxesL d).all (fun b =>
      b.x.isSome && b.y.isSome && b.width.isSome && b.height.isSome) = true := by
    have h2 := allBoxesGeomB_children hall
    rw [List.all_eq_true] at h2 ⊢
    intro b hb
    have h3 := h2 b hb
    rw [Bool.and_eq_true] at h3
    have h4 := h3.1
    simp only [hasGeom] at h4
    exact h4
  unfold autoLayout
  simp only [h1, hw, hh, Bool.and_self, Bool.and_true, Bool.true_and, if_true]

theorem c4_fast_path_idempotent_witness :
    allBoxesGeomB fullyExplicitTree = true ∧
    fullyExplicitTree.width.isSome = true ∧ fullyExplicitTree.height.isSome = true ∧
    autoLayout fullyExplicitTree none = fullyExplicitTree :=
  ⟨rfl, rfl, rfl, c4_fast_path_idempotent fullyExplicitTree none rfl rfl rfl⟩

/-- C8.  Canvas bounds discipline: for every canvas and all integer
coordinates, including negative ones and ones at or beyond the
dimensions, an out-of-bounds `get` returns a single space character and
an out-of-bounds `set` is a no-op leaving every cell unchanged (both are
total, so neither can throw). -/
theorem c8_canvas_bounds (c : Canvas) (x y : Int) (ch : String)
    (h : c.inBounds x y = false) :
    c.get x y = " " ∧ c.set x y ch = c := by
  refine ⟨?_, ?_⟩ <;> simp [Canvas.get, Canvas.set, h]

theorem c8_canvas_bounds_witness :
    (Canvas.new 5 5).inBounds (-1) 7 = false ∧
    ((Canvas.new 5 5).get (-1) 7 = " " ∧ (Canvas.new 5 5).set (-1) 7 "X" = Canvas.new 5 5) :=
  ⟨by decide, c8_canvas_bounds (Canvas.new 5 5) (-1) 7 "X" (by decide)⟩

/-- C7.  Silent skip with no partial draw: when the `from` id or the
`to` id of a connection does not resolve to any box in the tree,
`drawConnection` returns the canvas exactly as it was (it is total, so
it cannot throw, and not a single cell is written). -/
theorem c7_silent_skip (canvas : Canvas) (conn : Conn) (boxes : List Node)
    (allConns : Option (List Conn))
    (h : resolveBoxL conn.fromId boxes 0 0 = none ∨
         resolveBoxL conn.toId boxes 0 0 = none) :
    drawConnection canvas conn boxes allConns = canvas := by
  unfold drawConnection
  rcases h with h | h
  · rw [h]
  · rw [h]
    cases resolveBoxL conn.fromId boxes 0 0 <;> rfl

theorem c7_silent_skip_witness :
    resolveBoxL "ghost" straightBoxes 0 0 = none ∧
    drawConnection (Canvas.new 25 5) ⟨"ghost", "b", none, none, none⟩ straightBoxes none =
      Canvas.new 25 5 :=
  ⟨rfl,
   c7_silent_skip (Canvas.new 25 5) ⟨"ghost", "b", none, none, none⟩ straightBoxes none
     (Or.inl rfl)⟩

/-- C9.  Straight-route literal scenario: boxes at `(0,0,5,3)` and
`(15,0,5,3)` with a plain connection produce a straight horizontal arrow
whose arrowhead `▶` lands at column 14, row 1, and whose fill glyph `─`
lands at column 6, row 1. -/
theorem c9_straight_literal :
    straightCanvas.get 14 1 = "▶" ∧ straightCanvas.get 6 1 = "─" := by
  constructor <;> decide

/-- C6.  Junction merge is draw-order independent: in the
gateway/auth/orders scenario the L-shape turns at column 14 on the
source row 4, and whichever connection is drawn first, that cell holds
the tee glyph `┬` (not a plain `┐`), both arrowheads landing regardless. -/
theorem c6_junction_order_independent :
    junctionStraightFirst.get 14 4 = "┬" ∧ junctionLFirst.get 14 4 = "┬" := by
  constructor <;> decide

/-- C10.  Mixed children arrays silently drop text: for every node whose
children array holds both strings and structured nodes, `getChildBoxes`
returns exactly the node elements in order and `getTextContent` returns
null, so the strings are never laid out or rendered. -/
theorem c10_mixed_children (node : Node) (es : List Entry)
    (hch : node.children = some (.arr es))
    (hstr : ∃ s, Entry.str s ∈ es) (hnode : ∃ n, Entry.node n ∈ es) :
    getChildBoxes node = some (es.filterMap entryNode?) ∧
    getTextContent node = none := by
  obtain ⟨s, hs⟩ := hstr
  obtain ⟨n, hn⟩ := hnode
  have hne : es ≠ [] := by
    intro h
    rw [h] at hn
    exact absurd hn (List.not_mem_nil _)
  have hemp : es.isEmpty = false := by
    cases es with
    | nil => exact absurd rfl hne
    | cons e rest => rfl
  constructor
  · have hany : es.any (fun e => (entryNode? e).isSome) = true := by
      rw [List.any_eq_true]
      exact ⟨Entry.node n, hn, rfl⟩
    simp [getChildBoxes, hch, hemp, hany]
  · have hall : es.all (fun e => match e with | .str _ => true | .node _ => false) = false := by
      rw [List.all_eq_false]
      exact ⟨Entry.node n, hn, by simp⟩
    simp only [getTextContent, hch, hemp, Bool.false_eq_true, if_false]
    cases es with
    | nil => exact absurd rfl hne
    | cons e rest =>
      cases e with
      | str s0 => simp [hall]
      | node n0 => rfl

theorem c10_mixed_children_witness :
    getChildBoxes mixedChildrenNode = some [geomBox "inner" 0 0 4 3] ∧
    getTextContent mixedChildrenNode = none :=
  c10_mixed_children mixedChildrenNode
    [.str "caption", .node (geomBox "inner" 0 0 4 3), .str "footnote"]
    rfl ⟨"caption", by simp⟩ ⟨geomBox "inner" 0 0 4 3, by simp⟩

/-- C2 (code versus its own test): on six disconnected boxes the layout
produced by `autoLayout` puts every box in its own column on a single
row — six distinct x positions (more than 4 columns) and one distinct y
(fewer than 2 rows), the opposite of the required grid wrapping. -/
theorem c2_no_grid_wrapping :
    ((childBoxesL (autoLayout sixDisconnected none)).map Node.x) =
      [some 0, some 16, some 32, some 48, some 64, some 80] ∧
    ((childBoxesL (autoLayout sixDisconnected none)).map Node.y) =
      [some 1, some 1, some 1, some 1, some 1, some 1] := by
  constructor <;> rfl

/-- C3 (code versus its own comment): in `equalizeTree` the first child
declares `width: 10` explicitly and its auto-sized sibling gets width 12;
`equalizeWidths` runs after `autoSizeBox` has filled every width, so its
`c.width != null` filter selects the explicitly sized child too and
overwrites its width with the max, 12. -/
theorem c3_explicit_width_overwritten :
    ((childBoxesL ((childBoxesL equalizeTree).headD emptyNode)).map Node.width) =
      [some 10, none] ∧
    ((childBoxesL ((childBoxesL (autoLayout equalizeTree none)).headD emptyNode)).map
      Node.width) = [some 12, some 12] := by
  constructor <;> rfl

/-- C1, counterexample: `fastPathNested` satisfies the fast-path
precondition, so `autoLayout` returns it unchanged, and the nested box
`b` has no geometry at all — refuting totality of geometry for every
input tree. -/
theorem c1_totality_counterexample :
    allBoxesGeomB (autoLayout fastPathNested none) = false := by
  rfl

/-- C1, amended.  Totality of geometry off the fast path: for every
input tree on which `autoLayout` does not take the explicit-geometry
fast path (including trees with a 3-cycle a→b→c→a and nested containers
at any depth), every box at every nesting depth of the returned tree has
non-null integer x, y, width and height, and the returned root has
width and height. -/
theorem c1_totality_amended (d : Node) (options : Option LayoutOptions)
    (hfast : fastPathCondB d = false) :
    allBoxesGeomB (autoLayout d options) = true ∧
    ((autoLayout d options).width).isSome = true ∧
    ((autoLayout d options).height).isSome = true := by
  cases d with
  | mk i ch bd t s dd cd px py w h cs =>
    simp only [autoLayout]
    unfold fastPathCondB at hfast
    rw [hfast]
    simp only [Bool.false_eq_true, if_false]
    cases ch with
    | none =>
      simp only [Node.children, List.all_nil, if_true]
      exact sized_result_good _ [] rfl (fun b hb => absurd hb (List.not_mem_nil _))
    | some cv =>
      cases cv with
      | str s2 =>
        simp only [Node.children, List.all_nil, if_true]
        exact sized_result_good _ [] rfl (fun b hb => absurd hb (List.not_mem_nil _))
      | arr es =>
        simp only [Node.children]
        have hstep := layoutStep1_good es
          (collectConnections (Node.mk i (some (ChildrenVal.arr es)) bd t s dd cd px py w h cs))
          (mergeOpts options)
        by_cases hall2 : (layoutStep1Entries es
            (collectConnections (Node.mk i (some (ChildrenVal.arr es)) bd t s dd cd px py w h cs))
            (mergeOpts options)).all (fun b => b.x.isSome && b.y.isSome) = true
        · rw [if_pos hall2]
          refine sized_result_good _ _ ?_ ?_
          · rw [childBoxesL_arr, hstep.2]
          · intro b hb
            have hQ := hstep.1 b hb
            have hxy := List.all_eq_true.mp hall2 b hb
            rw [Bool.and_eq_true] at hxy
            exact ⟨by simp [hasGeom, hxy.1, hxy.2, hQ.1, hQ.2.1], hQ.2.2⟩
        · rw [if_neg hall2]
          refine autoLayoutRest_good _ _ _ _ hstep.1 ?_
          rw [childBoxesL_arr, hstep.2]

theorem c1_totality_amended_witness :
    fastPathCondB oneAutoBox = false ∧
    (allBoxesGeomB (autoLayout oneAutoBox none) = true ∧
     ((autoLayout oneAutoBox none).width).isSome = true ∧
     ((autoLayout oneAutoBox none).height).isSome = true) :=
  ⟨rfl, c1_totality_amended oneAutoBox none rfl⟩

end BoxOfRain
